import Mathlib

/-!
# push_service: a bounded-concurrency relay from redis channels to an HTTP api

A shallow embedding of `push_service.go` and `logger.go`.

* Go strings and byte slices are finite byte sequences.
* `CallApi` is embedded as the sequence of effects it performs, given what the
  outside world answers to the one HTTP call it makes.
* `SubscribeAndConsume` and the goroutines it starts are embedded as a step
  function on an explicit state; an interleaving is a list of actions.
* `main` / `NewConsumer` / `Run` are embedded over a heap of Go channels, so that
  the identity of each consumer's semaphore is explicit.
-/

namespace PushService

/-! ## Go strings -/

/-- One byte. -/
abbrev Byte := Fin 256

/-- A Go `string` or `[]byte`: a finite sequence of bytes. -/
abbrev GoString := List Byte

/-- The bytes of an ASCII literal of the source text. -/
def ascii (s : String) : GoString := s.data.map (fun c => Fin.ofNat c.toNat)

/-! ## Log levels (`logger.go`) -/

/-- The severities of package `lg`, in increasing order. -/
inductive LogLevel
  | DEBUG | INFO | WARN | ERROR | FATAL
  deriving DecidableEq, Repr

/-- The constant `LOG_DEBUG = lg.DEBUG`. -/
def LOG_DEBUG : LogLevel := LogLevel.DEBUG
/-- The constant `LOG_INFO = lg.INFO`. -/
def LOG_INFO : LogLevel := LogLevel.INFO
/-- The constant `LOG_WARN = lg.WARN`. -/
def LOG_WARN : LogLevel := LogLevel.WARN
/-- The constant `LOG_ERROR = lg.ERROR`. -/
def LOG_ERROR : LogLevel := LogLevel.ERROR
/-- The constant `LOG_FATAL = lg.FATAL`. -/
def LOG_FATAL : LogLevel := LogLevel.FATAL

/-! ## The fragment of `fmt.Sprintf` used by the log formats -/

/-- The digit of `0123456789abcdef` for a value below sixteen. -/
def hexDigitLower (n : Nat) : Byte :=
  if n < 10 then Fin.ofNat (48 + n) else Fin.ofNat (87 + n)

/-- The verb `%x` applied to a string or byte slice: two lower-case hex digits per byte. -/
def hexEncode : List Byte → GoString
  | [] => []
  | b :: bs => hexDigitLower (b.val / 16) :: hexDigitLower (b.val % 16) :: hexEncode bs

/-- Formatting with the verbs `%s` (the operand as it is) and `%x` (the operand in hex),
the only two verbs in the formats of `push_service.go`; `%%` is a percent sign and a verb
with no operand left prints as `%!v(MISSING)`. Flags, widths and other verbs are outside
the fragment and are copied. Operands are strings, byte slices, or errors given by their
`Error()` text. -/
def Sprintf : GoString → List GoString → GoString
  | [], _ => []
  | c :: tl, args =>
    if c.val = 37 then
      match tl with
      | [] => ascii "%!(NOVERB)"
      | v :: rest =>
        if v.val = 37 then c :: Sprintf rest args
        else
          match args with
          | [] => ascii "%!" ++ v :: ascii "(MISSING)" ++ Sprintf rest []
          | a :: more =>
            if v.val = 115 then a ++ Sprintf rest more
            else if v.val = 120 then hexEncode a ++ Sprintf rest more
            else c :: v :: Sprintf rest (a :: more)
    else c :: Sprintf tl args

/-- One call `p.logf(level, f, args...)`. -/
structure LogEntry where
  level : LogLevel
  format : GoString
  args : List GoString
  deriving DecidableEq, Repr

/-- Modelled from the spec: package `lg`, whose `Logf` the method `logf` of `logger.go`
calls, is not among the sources. The text of a log entry is its format applied to its
operands, `fmt.Sprintf(f, args...)`; whether an entry is written depends on the
configured minimum severity, so an entry stands for a call of `logf`. -/
def LogEntry.text (e : LogEntry) : GoString := Sprintf e.format e.args

/-! ## `Response` and `json.Unmarshal` into it -/

/-- The struct `Response` with its fields `Code int64` (tagged `code`) and
`Message string` (tagged `message`). -/
structure Response where
  Code : Int
  Message : GoString
  deriving DecidableEq, Repr

/-- A JSON number literal: an integer literal, or a literal with a fraction or an exponent
(kept as its text), which `strconv.ParseInt` does not accept. -/
inductive JNumber
  | int (z : Int)
  | real (lit : GoString)

/-- A JSON value, as the decoder sees it after the syntax check; object members are in
the order of the text, keys and strings are unquoted. -/
inductive JValue
  | null
  | bool (b : Bool)
  | number (n : JNumber)
  | string (s : GoString)
  | array (items : List JValue)
  | object (members : List (GoString × JValue))

/-- ASCII upper-case letters to lower case. -/
def lowerByte (b : Byte) : Byte :=
  if 65 ≤ b.val ∧ b.val ≤ 90 then Fin.ofNat (b.val + 32) else b

/-- Case folding of at most `n` characters of a key, see `foldKey`. -/
def foldKeyAux : Nat → GoString → GoString
  | 0, _ => []
  | n + 1, s =>
    if s.take 2 = [197, 191] then Fin.ofNat 115 :: foldKeyAux n (s.drop 2)
    else if s.take 3 = [226, 132, 170] then Fin.ofNat 107 :: foldKeyAux n (s.drop 3)
    else
      match s with
      | [] => []
      | b :: rest => lowerByte b :: foldKeyAux n rest

/-- Case folding of an object key as `encoding/json` matches it against a field name
made of ASCII letters: ASCII letters fold to lower case, U+017F (long s, bytes C5 BF)
folds to `s`, and U+212A (Kelvin sign, bytes E2 84 AA) folds to `k`. -/
def foldKey (s : GoString) : GoString := foldKeyAux s.length s

/-- Whether an object key selects the struct field tagged `name` (an exact match or a
case-insensitive one; `name` is lower-case ASCII). -/
def keyMatches (key : GoString) (name : String) : Bool := foldKey key == ascii name

/-- The decoder keeps the first type error and goes on. -/
def saveError (saved : Option GoString) (e : GoString) : Option GoString :=
  match saved with
  | none => some e
  | some old => some old

/-- Decoding of one object member into a `Response`: a member whose key selects `code`
sets `Code` from an integer literal in the int64 range, a member whose key selects
`message` sets `Message` from a string; `null` leaves the field as it is, any other
value is a type error; a member that selects no field is skipped. -/
def decodeMember (st : Response × Option GoString) (kv : GoString × JValue) :
    Response × Option GoString :=
  if keyMatches kv.1 "code" then
    match kv.2 with
    | JValue.null => st
    | JValue.number (JNumber.int z) =>
      if -(2 : Int) ^ 63 ≤ z ∧ z < (2 : Int) ^ 63 then
        ({ st.1 with Code := z }, st.2)
      else
        (st.1, saveError st.2
          (ascii "json: cannot unmarshal number into Go struct field Response.code of type int64"))
    | _ =>
      (st.1, saveError st.2
        (ascii "json: cannot unmarshal value into Go struct field Response.code of type int64"))
  else if keyMatches kv.1 "message" then
    match kv.2 with
    | JValue.null => st
    | JValue.string s => ({ st.1 with Message := s }, st.2)
    | _ =>
      (st.1, saveError st.2
        (ascii "json: cannot unmarshal value into Go struct field Response.message of type string"))
  else st

/-- Decoding of a JSON value into `response`: `null` changes nothing and is no error, an
object is decoded member by member in order, any other value is a type error. -/
def decodeValue (v : JValue) (response : Response) : Except GoString Response :=
  match v with
  | JValue.null => Except.ok response
  | JValue.object members =>
    match members.foldl decodeMember (response, none) with
    | (r, none) => Except.ok r
    | (_, some e) => Except.error e
  | _ => Except.error (ascii "json: cannot unmarshal value into Go value of type main.Response")

/-- The call `json.Unmarshal(body, response)`. The syntax check and tokenizer of
`encoding/json` is the parameter `scan` (a syntax error, or the value the text denotes);
the decoding into the struct follows the package's rules for struct targets. -/
def Unmarshal (scan : List Byte → Except GoString JValue) (body : List Byte)
    (response : Response) : Except GoString Response :=
  match scan body with
  | Except.error e => Except.error e
  | Except.ok v => decodeValue v response

/-! ## `Consumer` and `CallApi` -/

/-- The struct `Consumer`: the redis channel name, the semaphore (a reference to a Go
channel, see `Heap`), and the api endpoint. The back pointer `ps` gives access to the
shared logger and HTTP client, whose effects are recorded as events. -/
structure Consumer where
  channel : GoString
  sem : Nat
  apiEndpoint : GoString
  deriving DecidableEq, Repr

/-- An `*http.Response` as `CallApi` uses it: what `ioutil.ReadAll(resp.Body)` returns. -/
structure HTTPResponse where
  Body : Except GoString (List Byte)

/-- The effects of `CallApi`, in program order. -/
inductive Event
  | logf (entry : LogEntry)
  | PostForm (url : GoString) (data : List (GoString × List GoString))
  | ReadAll
  | Unmarshal (body : List Byte)
  | Close
  | recvSem
  deriving DecidableEq, Repr

/-- The body of `CallApi` after the `defer` statement, up to its return. `post` is what
`httpClient.PostForm` answers. The label `exit` is the final `Close`. -/
def CallApiBody (scan : List Byte → Except GoString JValue) (c : Consumer) (data : GoString)
    (post : Except GoString HTTPResponse) : List Event :=
  Event.PostForm c.apiEndpoint [(ascii "message", [data])] ::
  match post with
  | Except.error err =>
    [Event.logf ⟨LOG_ERROR, ascii "[%s] http post failed - %s", [c.channel, err]⟩]
  | Except.ok resp =>
    Event.ReadAll ::
    match resp.Body with
    | Except.error _ =>
      [Event.logf ⟨LOG_ERROR, ascii "[%s] read response body failed - %s", [c.channel, data]⟩,
       Event.Close]
    | Except.ok body =>
      Event.Unmarshal body ::
      match Unmarshal scan body ⟨0, []⟩ with
      | Except.error err =>
        [Event.logf ⟨LOG_ERROR, ascii "[%s] parse json response failed - %s %x",
           [c.channel, err, body]⟩,
         Event.Close]
      | Except.ok response =>
        if response.Code ≠ 0 then
          [Event.logf ⟨LOG_ERROR, ascii "[%s] json response tells error - %s",
             [c.channel, response.Message]⟩,
           Event.Close]
        else [Event.Close]

/-- The method `func (c *Consumer) CallApi(data string)`: the debug log of the payload
(used as the format), then the body, then, on every return, the deferred `<-c.sem`. -/
def CallApi (scan : List Byte → Except GoString JValue) (c : Consumer) (data : GoString)
    (post : Except GoString HTTPResponse) : List Event :=
  Event.logf ⟨LOG_DEBUG, data, []⟩ :: (CallApiBody scan c data post ++ [Event.recvSem])

/-- The error-level log entries among some effects, in order. -/
def errorEntries : List Event → List LogEntry
  | [] => []
  | Event.logf e :: rest =>
    if e.level = LOG_ERROR then e :: errorEntries rest else errorEntries rest
  | _ :: rest => errorEntries rest

/-- The number of receives from `c.sem` among some effects. -/
def semReceives : List Event → Nat
  | [] => 0
  | Event.recvSem :: rest => semReceives rest + 1
  | _ :: rest => semReceives rest

/-- The outbound calls among some effects, in order. -/
def outboundCalls : List Event → List (GoString × List (GoString × List GoString))
  | [] => []
  | Event.PostForm url data :: rest => (url, data) :: outboundCalls rest
  | _ :: rest => outboundCalls rest


/-! ## `net/url`: form encoding of the request body -/

/-- The type `url.Values`, a `map[string][]string`, listed in the order of its keys. -/
abbrev Values := List (GoString × List GoString)

/-- Letters, digits and `-`, `_`, `.`, `~`: the bytes `QueryEscape` leaves as they are. -/
def unreserved (b : Byte) : Bool :=
  (97 ≤ b.val && b.val ≤ 122) || (65 ≤ b.val && b.val ≤ 90) || (48 ≤ b.val && b.val ≤ 57)
    || b.val = 45 || b.val = 95 || b.val = 46 || b.val = 126

/-- The digit of `0123456789ABCDEF` for a value below sixteen. -/
def hexDigitUpper (n : Nat) : Byte :=
  if n < 10 then Fin.ofNat (48 + n) else Fin.ofNat (55 + n)

/-- The function `url.QueryEscape`: a space becomes `+`, unreserved bytes stay, every
other byte becomes `%XX`, its value in two upper-case hex digits. -/
def QueryEscape : GoString → GoString
  | [] => []
  | b :: rest =>
    if b.val = 32 then Fin.ofNat 43 :: QueryEscape rest
    else if unreserved b then b :: QueryEscape rest
    else Fin.ofNat 37 :: hexDigitUpper (b.val / 16) :: hexDigitUpper (b.val % 16)
      :: QueryEscape rest

/-- The value of a hex digit, of either case. -/
def unhex (c : Byte) : Option Nat :=
  if 48 ≤ c.val ∧ c.val ≤ 57 then some (c.val - 48)
  else if 97 ≤ c.val ∧ c.val ≤ 102 then some (c.val - 97 + 10)
  else if 65 ≤ c.val ∧ c.val ≤ 70 then some (c.val - 65 + 10)
  else none

/-- The function `url.QueryUnescape`: `%XX` becomes the byte, `+` becomes a space; a `%`
that is not followed by two hex digits is an error. -/
def QueryUnescape : GoString → Except GoString GoString
  | [] => Except.ok []
  | c :: rest =>
    if c.val = 37 then
      match rest with
      | h :: l :: rest2 =>
        match unhex h, unhex l with
        | some hi, some lo =>
          match QueryUnescape rest2 with
          | Except.ok t => Except.ok (Fin.ofNat (16 * hi + lo) :: t)
          | Except.error e => Except.error e
        | _, _ => Except.error (ascii "invalid URL escape")
      | _ => Except.error (ascii "invalid URL escape")
    else
      match QueryUnescape rest with
      | Except.ok t => Except.ok ((if c.val = 43 then Fin.ofNat 32 else c) :: t)
      | Except.error e => Except.error e

/-- The pieces of a list of strings joined by the byte `sep`. -/
def joinWith (sep : Byte) : List GoString → GoString
  | [] => []
  | [p] => p
  | p :: q :: rest => p ++ sep :: joinWith sep (q :: rest)

/-- The method `Values.Encode`: `key=value` for every value of every key, both escaped, joined
by `&`. -/
def Values.Encode (v : Values) : GoString :=
  joinWith (Fin.ofNat 38)
    (v.flatMap (fun kv => kv.2.map (fun value => QueryEscape kv.1 ++ Fin.ofNat 61 :: QueryEscape value)))

/-- The pieces of a string between occurrences of the byte `sep`. -/
def splitAt (sep : Byte) : GoString → List GoString
  | [] => [[]]
  | b :: rest =>
    if b = sep then [] :: splitAt sep rest
    else
      match splitAt sep rest with
      | [] => [[b]]
      | p :: ps => (b :: p) :: ps

/-- The call `strings.Cut(s, "=")`: the text before the first `=` and the text after it (empty
when there is none). -/
def cutEq : GoString → GoString × GoString
  | [] => ([], [])
  | b :: rest => if b.val = 61 then ([], rest) else ((cutEq rest).1.cons b, (cutEq rest).2)

/-- The statement `m[key] = append(m[key], value)`. -/
def Values.add (m : Values) (key value : GoString) : Values :=
  match m with
  | [] => [(key, [value])]
  | kv :: rest => if kv.1 = key then (kv.1, kv.2 ++ [value]) :: rest else kv :: Values.add rest key value

/-- One round of the loop of `url.ParseQuery` on the piece `piece` (the text up to the
next `&`): a piece with a semicolon or a bad escape sets the error (the first one is
kept) and is skipped, an empty piece is skipped. -/
def parsePiece (st : Values × Option GoString) (piece : GoString) : Values × Option GoString :=
  if (Fin.ofNat 59 : Byte) ∈ piece then
    (st.1, some (ascii "invalid semicolon separator in query"))
  else if piece = [] then st
  else
    match QueryUnescape (cutEq piece).1 with
    | Except.error e => (st.1, saveError st.2 e)
    | Except.ok key =>
      match QueryUnescape (cutEq piece).2 with
      | Except.error e => (st.1, saveError st.2 e)
      | Except.ok value => (Values.add st.1 key value, st.2)

/-- The function `url.ParseQuery`, the decoding of a form body: the values found and the first error. -/
def ParseQuery (query : GoString) : Values × Option GoString :=
  (splitAt (Fin.ofNat 38) query).foldl parsePiece ([], none)

/-- The request that `httpClient.PostForm(url, data)` sends. -/
structure Request where
  Method : GoString
  URL : GoString
  ContentType : GoString
  Body : GoString
  deriving DecidableEq, Repr

/-- The call `Client.PostForm(url, data)`, which is
`Post(url, "application/x-www-form-urlencoded", strings.NewReader(data.Encode()))`. -/
def PostFormRequest (url : GoString) (data : Values) : Request :=
  ⟨ascii "POST", url, ascii "application/x-www-form-urlencoded", Values.Encode data⟩


/-! ## Go channels and the semaphore -/

/-- A Go channel of `bool` values made by `make(chan bool, cap)`: since every value sent
is `true`, its state is the number `len` of values in its buffer. -/
structure Chan where
  cap : Nat
  len : Nat
  deriving DecidableEq, Repr

/-- The call `make(chan bool, n)` for an `int64` size `n`, on a machine where `limit` is
the largest size for which `make` returns: for a negative size and for a size above
`limit` the program stops (the run-time panic `makechan: size out of range`, or the
abort of the runtime for lack of memory), otherwise the result is an empty channel with
a buffer of `n` values (`n = 0` is an unbuffered channel). -/
def makeChan (limit : Nat) (n : Int) : Option Chan :=
  if n < 0 ∨ (limit : Int) < n then none else some ⟨n.toNat, 0⟩

/-- The send `ch <- true`, or `none` while it blocks. A send completes when the buffer
has room. On an unbuffered channel it completes only together with a receive; the only
receives from a semaphore are those of `CallApi`, which is started after a send has
completed, so on a semaphore of capacity zero no send ever completes. -/
def Chan.send (ch : Chan) : Option Chan :=
  if ch.len < ch.cap then some { ch with len := ch.len + 1 } else none

/-- The receive `<-ch`, or `none` while it blocks on an empty buffer. -/
def Chan.recv (ch : Chan) : Option Chan :=
  if 0 < ch.len then some { ch with len := ch.len - 1 } else none

/-- The effect of a sequence of effects of `CallApi` on the semaphore: every `<-c.sem`
is a receive; `none` if one of them blocks. -/
def runEvents : List Event → Chan → Option Chan
  | [], ch => some ch
  | Event.recvSem :: rest, ch =>
    match ch.recv with
    | none => none
    | some ch1 => runEvents rest ch1
  | _ :: rest, ch => runEvents rest ch

/-! ## `SubscribeAndConsume` and its goroutines -/

/-- A `redis.Message`. -/
structure Message where
  Channel : GoString
  Payload : GoString
  deriving DecidableEq, Repr

/-- Where the loop `for msg := range ch` of `SubscribeAndConsume` stands: waiting on the
feed, about to do `c.sem <- true` for a message, about to do `go c.CallApi(msg.Payload)`
for it, or left (the feed was closed and the function has returned). -/
inductive Loop
  | ranging
  | sending (msg : Message)
  | spawning (msg : Message)
  | returned
  deriving DecidableEq, Repr

/-- The goroutine running `SubscribeAndConsume` together with the `CallApi` goroutines it
has started. `feed` is what the subscription still has to deliver before it is closed;
`tasks` are the payloads of the `CallApi` calls that were started and have not returned.
The other fields record what has happened: the payloads of the `go` statements in order,
the numbers of completed sends on and receives from `c.sem`, and the effects logged. -/
structure Thread where
  feed : List Message
  loop : Loop
  tasks : List GoString
  launched : List GoString
  sends : Nat
  receives : Nat
  log : List Event
  deriving DecidableEq, Repr

/-- One consumer as it sees the world: its semaphore and its goroutines. -/
structure State where
  sem : Chan
  thread : Thread
  deriving DecidableEq, Repr

/-- The steps of one consumer: the range statement takes the next message or finds the
feed closed; the send on the semaphore completes; the `go` statement starts `CallApi`;
the `i`-th running `CallApi` gets `post` as the answer of `PostForm` and runs to its
return. The only step of `CallApi` that touches the semaphore is its deferred receive,
the last thing it does, so its return is taken as one step. -/
inductive Action
  | next
  | send
  | go
  | ret (i : Nat) (post : Except GoString HTTPResponse)

/-- One step of a consumer, or `none` when the step cannot be taken in this state. -/
def step (scan : List Byte → Except GoString JValue) (c : Consumer) (a : Action) (s : State) :
    Option State :=
  match a with
  | Action.next =>
    match s.thread.loop with
    | Loop.ranging =>
      match s.thread.feed with
      | [] => some { s with thread := { s.thread with loop := Loop.returned } }
      | m :: rest => some { s with thread := { s.thread with feed := rest, loop := Loop.sending m } }
    | _ => none
  | Action.send =>
    match s.thread.loop with
    | Loop.sending m =>
      match s.sem.send with
      | none => none
      | some ch =>
        some { sem := ch,
               thread := { s.thread with loop := Loop.spawning m, sends := s.thread.sends + 1 } }
    | _ => none
  | Action.go =>
    match s.thread.loop with
    | Loop.spawning m =>
      some { s with thread := { s.thread with
               loop := Loop.ranging,
               tasks := s.thread.tasks ++ [m.Payload],
               launched := s.thread.launched ++ [m.Payload] } }
    | _ => none
  | Action.ret i post =>
    match s.thread.tasks[i]? with
    | none => none
    | some data =>
      match runEvents (CallApi scan c data post) s.sem with
      | none => none
      | some ch =>
        some { sem := ch,
               thread := { s.thread with
                 tasks := s.thread.tasks.eraseIdx i,
                 receives := s.thread.receives + semReceives (CallApi scan c data post),
                 log := s.thread.log ++ CallApi scan c data post } }

/-- An interleaving: the steps of a list of actions, one after the other. -/
def run (scan : List Byte → Except GoString JValue) (c : Consumer) :
    List Action → State → Option State
  | [], s => some s
  | a :: rest, s =>
    match step scan c a s with
    | none => none
    | some s1 => run scan c rest s1

/-- The goroutine of `SubscribeAndConsume` when it reaches its loop: subscribed, two
info entries logged, nothing pulled yet. -/
def startThread (c : Consumer) (feed : List Message) : Thread :=
  { feed := feed, loop := Loop.ranging, tasks := [], launched := [], sends := 0, receives := 0,
    log := [Event.logf ⟨LOG_INFO, ascii "[%s] Subscribe channel success", [c.channel]⟩,
            Event.logf ⟨LOG_INFO, ascii "[%s] Start receiving message", [c.channel]⟩] }

/-! ## `NewConsumer`, `main` and `Run` -/

/-- The Go channels made so far; a channel value is its index here. -/
abbrev Heap := List Chan

/-- The method `func (p *PushService) NewConsumer(channel, concurrency, apiEndpoint)`:
makes a new channel of capacity `concurrency` for the semaphore and compares
`concurrency` with nothing (`none` is the program stopping in `make`, see `makeChan`
for `limit`). -/
def NewConsumer (limit : Nat) (heap : Heap) (channel : GoString) (concurrency : Int)
    (apiEndpoint : GoString) : Option (Consumer × Heap) :=
  match makeChan limit concurrency with
  | none => none
  | some ch => some (⟨channel, heap.length, apiEndpoint⟩, heap ++ [ch])

/-- The method `func (p *PushService) AddConsumer(consumer)`. -/
def AddConsumer (consumers : List Consumer) (consumer : Consumer) : List Consumer :=
  consumers ++ [consumer]

/-- A value of a `[[channels]]` table as `go-toml` delivers it; an integer is an `int64`. -/
inductive TomlValue
  | str (s : GoString)
  | int (n : Int)
  | other
  deriving DecidableEq, Repr

/-- One `[[channels]]` table, a `map[string]interface{}`. -/
abbrev TomlMap := List (String × TomlValue)

/-- The index expression `c[key]`; `none` is the nil interface of an absent key. -/
def TomlMap.index (c : TomlMap) (key : String) : Option TomlValue :=
  match c.find? (fun kv => kv.1 == key) with
  | none => none
  | some kv => some kv.2

/-- The type assertion `.(string)`; `none` is its panic. -/
def assertString : Option TomlValue → Option GoString
  | some (TomlValue.str s) => some s
  | _ => none

/-- The type assertion `.(int64)`; `none` is its panic. -/
def assertInt64 : Option TomlValue → Option Int
  | some (TomlValue.int n) => some n
  | _ => none

/-- The loop of `main` over `opts.channels`: `NewConsumer` then `AddConsumer` for each
table; `none` is a panic. -/
def addConsumers (limit : Nat) :
    List TomlMap → Heap × List Consumer → Option (Heap × List Consumer)
  | [], st => some st
  | c :: rest, st =>
    match assertString (c.index "name"), assertInt64 (c.index "concurrency"),
        assertString (c.index "api_endpoint") with
    | some name, some concurrency, some apiEndpoint =>
      match NewConsumer limit st.1 name concurrency apiEndpoint with
      | none => none
      | some (consumer, heap) => addConsumers limit rest (heap, AddConsumer st.2 consumer)
    | _, _, _ => none

/-- The whole program state: the channels, and every consumer with its goroutines. -/
structure World where
  chans : Heap
  threads : List (Consumer × Thread)

/-- Modelled from the spec: `util.WaitGroupWrapper` is not among the sources; by the spec
every consumer's loop is launched concurrently and the caller blocks until all have
returned. The method `func (p *PushService) Run(opts)` starts one goroutine running
`SubscribeAndConsume` for every consumer; `feed` is what redis delivers to the
subscription of each. -/
def Run (heap : Heap) (consumers : List Consumer) (feed : Consumer → List Message) : World :=
  ⟨heap, consumers.map (fun c => (c, startThread c (feed c)))⟩

/-- The type assertions `c.(map[string]interface{})` of `loadConfig` on the elements of
the channels array, in order; `none` is the panic of one of them. -/
def assertTables : List (Option TomlMap) → Option (List TomlMap)
  | [] => some []
  | none :: _ => none
  | some c :: rest =>
    match assertTables rest with
    | none => none
    | some cs => some (c :: cs)

/-- The part of `func loadConfig(path)` that fills `opts.channels`. Its argument is what
`tomlMap["channels"]` holds: `none` when the key is absent or is not an array (the
function then panics with `Config [[channels]] missing!`), else the elements of the
array, each a table or (`none`) something else. The tables are appended as they are;
`none` is a panic. The reads of the logger, redis and http client keys are left out. -/
def loadConfig (channels : Option (List (Option TomlMap))) : Option (List TomlMap) :=
  match channels with
  | none => none
  | some cs => assertTables cs

/-- The function `func main()`: `loadConfig`, then `NewConsumer` and `AddConsumer` for
each of `opts.channels`, then `Run`; `none` is the program stopping before `Run`.
`NewPushService`, which runs in between and builds no consumer, is taken to succeed;
`limit` is the largest channel size the machine can make, see `makeChan`. -/
def main (limit : Nat) (config : Option (List (Option TomlMap)))
    (feed : Consumer → List Message) : Option World :=
  match loadConfig config with
  | none => none
  | some channels =>
    match addConsumers limit channels ([], []) with
    | none => none
    | some (heap, consumers) => some (Run heap consumers feed)

/-- What consumer number `j` sees of the world. -/
def World.view (w : World) (j : Nat) : Option (Consumer × State) :=
  match w.threads[j]? with
  | none => none
  | some (c, t) =>
    match w.chans[c.sem]? with
    | none => none
    | some ch => some (c, ⟨ch, t⟩)

/-- A step of consumer number `i` in the world: the step of `step` on its view, written
back to its semaphore and its goroutines. -/
def World.step (scan : List Byte → Except GoString JValue) (i : Nat) (a : Action) (w : World) :
    Option World :=
  match w.view i with
  | none => none
  | some (c, s) =>
    match PushService.step scan c a s with
    | none => none
    | some s1 => some ⟨w.chans.set c.sem s1.sem, w.threads.set i (c, s1.thread)⟩

/-- An interleaving of the steps of all consumers. -/
def World.run (scan : List Byte → Except GoString JValue) :
    List (Nat × Action) → World → Option World
  | [], w => some w
  | (i, a) :: rest, w =>
    match World.step scan i a w with
    | none => none
    | some w1 => World.run scan rest w1

/-! ## An example environment -/

/-- An example of a scanner: the values denoted by the literal response bodies of the
examples; every other text is reported as a syntax error. -/
def exampleScan (body : List Byte) : Except GoString JValue :=
  if body = ascii "\x7b\"code\":0,\"message\":\"ok\"\x7d" then
    Except.ok (JValue.object
      [(ascii "code", JValue.number (JNumber.int 0)), (ascii "message", JValue.string (ascii "ok"))])
  else if body = ascii "\x7b\"code\":1,\"message\":\"bad token\"\x7d" then
    Except.ok (JValue.object
      [(ascii "code", JValue.number (JNumber.int 1)),
       (ascii "message", JValue.string (ascii "bad token"))])
  else if body = ascii "\x7b\x7d" then Except.ok (JValue.object [])
  else if body = ascii "\x7b\"message\":\"rejected\"\x7d" then
    Except.ok (JValue.object [(ascii "message", JValue.string (ascii "rejected"))])
  else if body = ascii "null" then Except.ok JValue.null
  else Except.error (ascii "invalid character")

/-- An example consumer: channel `a`, semaphore at index 0, a local endpoint. -/
def exampleConsumer : Consumer := ⟨ascii "a", 0, ascii "http://127.0.0.1/push"⟩


/-! ## Quantities of a consumer state -/

/-- The slots the loop itself holds: one between its send and its `go` statement. -/
def held : Loop → Nat
  | Loop.spawning _ => 1
  | _ => 0

/-- The payload of the message the loop has pulled and not yet handed to `CallApi`. -/
def pending : Loop → List GoString
  | Loop.sending m => [m.Payload]
  | Loop.spawning m => [m.Payload]
  | _ => []

/-- The number of steps a consumer has left: four for every message still on the feed
(pull, send, go, return of its `CallApi`), one for every running `CallApi`, and those the
loop needs to finish its current round or to find the feed closed. -/
def potential (t : Thread) : Nat :=
  4 * t.feed.length + t.tasks.length +
    match t.loop with
    | Loop.ranging => 1
    | Loop.sending _ => 4
    | Loop.spawning _ => 3
    | Loop.returned => 0

/-- The state of a consumer whose semaphore was made with capacity `N`, as its loop
starts on the feed `feed`. -/
def initState (N : Nat) (c : Consumer) (feed : List Message) : State :=
  ⟨⟨N, 0⟩, startThread c feed⟩

/-- What holds in every state a consumer of capacity `N` reaches on the feed `msgs`. -/
structure Inv (N : Nat) (msgs : List Message) (s : State) : Prop where
  cap_eq : s.sem.cap = N
  len_eq : s.sem.len = s.thread.tasks.length + held s.thread.loop
  len_le : s.sem.len ≤ N
  sends_eq : s.thread.sends = s.thread.launched.length + held s.thread.loop
  receives_eq : s.thread.receives + s.thread.tasks.length = s.thread.launched.length
  pulled : msgs.map Message.Payload
    = s.thread.launched ++ (pending s.thread.loop ++ s.thread.feed.map Message.Payload)
  closed : s.thread.loop = Loop.returned → s.thread.feed = []

/-- Every consumer's semaphore is the channel at its own index. -/
def WellFormed (w : World) : Prop :=
  w.chans.length = w.threads.length ∧
    ∀ (j : Nat) (c : Consumer) (t : Thread), w.threads[j]? = some (c, t) → c.sem = j


/-- An example feed: a burst of three messages on channel `a`. -/
def exampleFeed : List Message :=
  [⟨ascii "a", ascii "m1"⟩, ⟨ascii "a", ascii "m2"⟩, ⟨ascii "a", ascii "m3"⟩]

/-- An example `[[channels]]` table with the given name and concurrency. -/
def exampleTable (name : String) (concurrency : Int) : TomlMap :=
  [("name", TomlValue.str (ascii name)), ("concurrency", TomlValue.int concurrency),
   ("api_endpoint", TomlValue.str (ascii "http://127.0.0.1/push"))]

/-- An example of the largest channel size the machine can make. -/
def exampleLimit : Nat := 2 ^ 32

/-- An example configuration: two tables, with concurrency 1 and 2. -/
def exampleConfig : Option (List (Option TomlMap)) :=
  some [some (exampleTable "a" 1), some (exampleTable "b" 2)]

/-- An example interleaving on `exampleFeed` with one slot: each message is pulled, gets
the slot, and its `CallApi` returns before the next pull; the first call fails in
transport, the second is answered with code 1, the third with `null`. -/
def exampleSchedule : List Action :=
  [Action.next, Action.send, Action.go,
   Action.ret 0 (Except.error (ascii "connection refused")),
   Action.next, Action.send, Action.go,
   Action.ret 0 (Except.ok ⟨Except.ok (ascii "\x7b\"code\":1,\"message\":\"bad token\"\x7d")⟩),
   Action.next, Action.send, Action.go,
   Action.ret 0 (Except.ok ⟨Except.ok (ascii "null")⟩),
   Action.next]


/-! ## Facts about the formatting fragment -/

theorem Sprintf_literal (pre rest : GoString) (args : List GoString)
    (h : ∀ b ∈ pre, b.val ≠ 37) :
    Sprintf (pre ++ rest) args = pre ++ Sprintf rest args := by
  induction pre with
  | nil => rfl
  | cons c tl ih =>
    have hc : c.val ≠ 37 := h c (List.mem_cons_self c tl)
    have htl : ∀ b ∈ tl, b.val ≠ 37 := fun b hb => h b (List.mem_cons_of_mem c hb)
    rw [List.cons_append, Sprintf.eq_def]
    simp [hc, ih htl]

theorem Sprintf_verb_s (rest a : GoString) (more : List GoString) :
    Sprintf (ascii "%s" ++ rest) (a :: more) = a ++ Sprintf rest more := by
  have h : ascii "%s" = [37, 115] := by decide
  rw [h]
  simp +decide [Sprintf]

theorem Sprintf_verb_x (rest a : GoString) (more : List GoString) :
    Sprintf (ascii "%x" ++ rest) (a :: more) = hexEncode a ++ Sprintf rest more := by
  have h : ascii "%x" = [37, 120] := by decide
  rw [h]
  simp +decide [Sprintf]

theorem Sprintf_nil (args : List GoString) : Sprintf [] args = [] := by
  simp [Sprintf]

set_option maxRecDepth 20000 in
theorem text_post_failed (a b : GoString) :
    Sprintf (ascii "[%s] http post failed - %s") [a, b]
      = ascii "[" ++ (a ++ (ascii "] http post failed - " ++ b)) := by
  have h : ascii "[%s] http post failed - %s"
      = ascii "[" ++ (ascii "%s" ++ (ascii "] http post failed - " ++ (ascii "%s" ++ []))) := by
    decide
  rw [h, Sprintf_literal _ _ _ (by decide), Sprintf_verb_s,
    Sprintf_literal _ _ _ (by decide), Sprintf_verb_s, Sprintf_nil, List.append_nil]


set_option maxRecDepth 20000 in
theorem text_read_failed (a b : GoString) :
    Sprintf (ascii "[%s] read response body failed - %s") [a, b]
      = ascii "[" ++ (a ++ (ascii "] read response body failed - " ++ b)) := by
  have h : ascii "[%s] read response body failed - %s"
      = ascii "[" ++ (ascii "%s" ++ (ascii "] read response body failed - " ++ (ascii "%s" ++ []))) := by
    decide
  rw [h, Sprintf_literal _ _ _ (by decide), Sprintf_verb_s,
    Sprintf_literal _ _ _ (by decide), Sprintf_verb_s, Sprintf_nil, List.append_nil]

set_option maxRecDepth 20000 in
theorem text_parse_failed (a b body : GoString) :
    Sprintf (ascii "[%s] parse json response failed - %s %x") [a, b, body]
      = ascii "[" ++ (a ++ (ascii "] parse json response failed - " ++
          (b ++ (ascii " " ++ hexEncode body)))) := by
  have h : ascii "[%s] parse json response failed - %s %x"
      = ascii "[" ++ (ascii "%s" ++ (ascii "] parse json response failed - " ++
          (ascii "%s" ++ (ascii " " ++ (ascii "%x" ++ []))))) := by
    decide
  rw [h, Sprintf_literal _ _ _ (by decide), Sprintf_verb_s,
    Sprintf_literal _ _ _ (by decide), Sprintf_verb_s,
    Sprintf_literal _ _ _ (by decide), Sprintf_verb_x, Sprintf_nil, List.append_nil]

set_option maxRecDepth 20000 in
theorem text_tells_error (a b : GoString) :
    Sprintf (ascii "[%s] json response tells error - %s") [a, b]
      = ascii "[" ++ (a ++ (ascii "] json response tells error - " ++ b)) := by
  have h : ascii "[%s] json response tells error - %s"
      = ascii "[" ++ (ascii "%s" ++ (ascii "] json response tells error - " ++ (ascii "%s" ++ []))) := by
    decide
  rw [h, Sprintf_literal _ _ _ (by decide), Sprintf_verb_s,
    Sprintf_literal _ _ _ (by decide), Sprintf_verb_s, Sprintf_nil, List.append_nil]

/-! ## The five ways out of `CallApi` -/

theorem errorEntries_append (xs ys : List Event) :
    errorEntries (xs ++ ys) = errorEntries xs ++ errorEntries ys := by
  induction xs with
  | nil => rfl
  | cons x tl ih =>
    cases x <;> simp [errorEntries, ih]
    split
    · simp
    · simp

theorem semReceives_append (xs ys : List Event) :
    semReceives (xs ++ ys) = semReceives xs + semReceives ys := by
  induction xs with
  | nil => simp [semReceives]
  | cons x tl ih =>
    cases x <;> simp [semReceives, ih]
    omega

theorem errorEntries_post_error (scan : List Byte → Except GoString JValue) (c : Consumer)
    (data err : GoString) :
    errorEntries (CallApi scan c data (Except.error err))
      = [⟨LOG_ERROR, ascii "[%s] http post failed - %s", [c.channel, err]⟩] := by
  simp [CallApi, CallApiBody, errorEntries, LOG_ERROR, LOG_DEBUG]

theorem errorEntries_read_error (scan : List Byte → Except GoString JValue) (c : Consumer)
    (data err : GoString) :
    errorEntries (CallApi scan c data (Except.ok ⟨Except.error err⟩))
      = [⟨LOG_ERROR, ascii "[%s] read response body failed - %s", [c.channel, data]⟩] := by
  simp [CallApi, CallApiBody, errorEntries, LOG_ERROR, LOG_DEBUG]

theorem errorEntries_parse_error (scan : List Byte → Except GoString JValue) (c : Consumer)
    (data : GoString) (body : List Byte) (err : GoString)
    (h : Unmarshal scan body ⟨0, []⟩ = Except.error err) :
    errorEntries (CallApi scan c data (Except.ok ⟨Except.ok body⟩))
      = [⟨LOG_ERROR, ascii "[%s] parse json response failed - %s %x",
          [c.channel, err, body]⟩] := by
  simp [CallApi, CallApiBody, errorEntries, LOG_ERROR, LOG_DEBUG, h]

theorem errorEntries_code_nonzero (scan : List Byte → Except GoString JValue) (c : Consumer)
    (data : GoString) (body : List Byte) (r : Response)
    (h : Unmarshal scan body ⟨0, []⟩ = Except.ok r) (hc : r.Code ≠ 0) :
    errorEntries (CallApi scan c data (Except.ok ⟨Except.ok body⟩))
      = [⟨LOG_ERROR, ascii "[%s] json response tells error - %s",
          [c.channel, r.Message]⟩] := by
  simp [CallApi, CallApiBody, errorEntries, LOG_ERROR, LOG_DEBUG, h, hc]

theorem errorEntries_code_zero (scan : List Byte → Except GoString JValue) (c : Consumer)
    (data : GoString) (body : List Byte) (r : Response)
    (h : Unmarshal scan body ⟨0, []⟩ = Except.ok r) (hc : r.Code = 0) :
    errorEntries (CallApi scan c data (Except.ok ⟨Except.ok body⟩)) = [] := by
  simp [CallApi, CallApiBody, errorEntries, LOG_ERROR, LOG_DEBUG, h, hc]

theorem semReceives_CallApiBody (scan : List Byte → Except GoString JValue) (c : Consumer)
    (data : GoString) (post : Except GoString HTTPResponse) :
    semReceives (CallApiBody scan c data post) = 0 := by
  unfold CallApiBody
  cases post with
  | error e => simp [semReceives]
  | ok resp =>
    cases hb : resp.Body with
    | error e => simp [semReceives, hb]
    | ok body =>
      cases hu : Unmarshal scan body ⟨0, []⟩ with
      | error e => simp [semReceives, hb, hu]
      | ok r =>
        by_cases hc : r.Code = 0 <;> simp [semReceives, hb, hu, hc]


/-! ## Facts about the form encoding -/

theorem unhex_hexDigitUpper (n : Nat) (h : n < 16) : unhex (hexDigitUpper n) = some n := by
  have key : ∀ k : Fin 16, unhex (hexDigitUpper k.val) = some k.val := by decide
  exact key ⟨n, h⟩

theorem unreserved_hexDigitUpper (n : Nat) (h : n < 16) : unreserved (hexDigitUpper n) = true := by
  have key : ∀ k : Fin 16, unreserved (hexDigitUpper k.val) = true := by decide
  exact key ⟨n, h⟩

theorem byte_of_nibbles (b : Byte) : (Fin.ofNat (16 * (b.val / 16) + b.val % 16) : Byte) = b := by
  apply Fin.ext
  have hb : b.val < 256 := b.isLt
  simp only [Fin.ofNat, Fin.val_mk]
  omega

theorem unreserved_not_special (b : Byte) (h : unreserved b = true) :
    b.val ≠ 37 ∧ b.val ≠ 43 ∧ b.val ≠ 38 ∧ b.val ≠ 59 ∧ b.val ≠ 61 := by
  simp only [unreserved, Bool.or_eq_true, Bool.and_eq_true, decide_eq_true_eq] at h
  omega

theorem QueryUnescape_cons_plain (c : Byte) (rest : GoString) (h : c.val ≠ 37) :
    QueryUnescape (c :: rest) =
      match QueryUnescape rest with
      | Except.ok t => Except.ok ((if c.val = 43 then Fin.ofNat 32 else c) :: t)
      | Except.error e => Except.error e := by
  rw [QueryUnescape.eq_def]
  simp [h]

theorem QueryUnescape_cons_escape (h l : Byte) (rest : GoString) (hi lo : Nat)
    (hh : unhex h = some hi) (hl : unhex l = some lo) :
    QueryUnescape (Fin.ofNat 37 :: h :: l :: rest) =
      match QueryUnescape rest with
      | Except.ok t => Except.ok (Fin.ofNat (16 * hi + lo) :: t)
      | Except.error e => Except.error e := by
  rw [QueryUnescape.eq_def]
  simp +decide [hh, hl]

theorem QueryUnescape_QueryEscape (s : GoString) :
    QueryUnescape (QueryEscape s) = Except.ok s := by
  induction s with
  | nil => rfl
  | cons b rest ih =>
    by_cases h32 : b.val = 32
    · have hb : b = Fin.ofNat 32 := Fin.ext h32
      subst hb
      have e : QueryEscape (Fin.ofNat 32 :: rest) = Fin.ofNat 43 :: QueryEscape rest := by
        simp +decide [QueryEscape]
      rw [e, QueryUnescape_cons_plain _ _ (by decide), ih]
      simp +decide
    · by_cases hu : unreserved b = true
      · obtain ⟨h37, h43, -⟩ := unreserved_not_special b hu
        have e : QueryEscape (b :: rest) = b :: QueryEscape rest := by
          simp [QueryEscape, h32, hu]
        rw [e, QueryUnescape_cons_plain _ _ h37, ih]
        simp [h43]
      · have hlo : b.val % 16 < 16 := Nat.mod_lt _ (by decide)
        have hhi : b.val / 16 < 16 := by
          have hb : b.val < 256 := b.isLt
          omega
        have e : QueryEscape (b :: rest) = Fin.ofNat 37 :: hexDigitUpper (b.val / 16)
            :: hexDigitUpper (b.val % 16) :: QueryEscape rest := by
          simp [QueryEscape, h32, hu]
        rw [e, QueryUnescape_cons_escape _ _ _ _ _ (unhex_hexDigitUpper _ hhi)
          (unhex_hexDigitUpper _ hlo), ih]
        simp [byte_of_nibbles]

theorem QueryEscape_bytes (s : GoString) (x : Byte) (hx : x ∈ QueryEscape s) :
    x.val = 43 ∨ x.val = 37 ∨ unreserved x = true := by
  induction s with
  | nil => simp [QueryEscape] at hx
  | cons b rest ih =>
    have hlo : b.val % 16 < 16 := Nat.mod_lt _ (by decide)
    have hhi : b.val / 16 < 16 := by
      have hb : b.val < 256 := b.isLt
      omega
    unfold QueryEscape at hx
    split at hx
    · rcases List.mem_cons.mp hx with h | h
      · left; rw [h]; rfl
      · exact ih h
    · split at hx
      · rcases List.mem_cons.mp hx with h | h
        · right; right; rw [h]; assumption
        · exact ih h
      · rcases List.mem_cons.mp hx with h | h
        · right; left; rw [h]; rfl
        · rcases List.mem_cons.mp h with h | h
          · right; right; rw [h]; exact unreserved_hexDigitUpper _ hhi
          · rcases List.mem_cons.mp h with h | h
            · right; right; rw [h]; exact unreserved_hexDigitUpper _ hlo
            · exact ih h

theorem QueryEscape_no_separator (s : GoString) (x : Byte) (hx : x ∈ QueryEscape s) :
    x.val ≠ 38 ∧ x.val ≠ 59 := by
  rcases QueryEscape_bytes s x hx with h | h | h
  · omega
  · omega
  · obtain ⟨-, -, h38, h59, -⟩ := unreserved_not_special x h
    exact ⟨h38, h59⟩

theorem splitAt_of_not_mem (sep : Byte) (s : GoString) (h : sep ∉ s) : splitAt sep s = [s] := by
  induction s with
  | nil => rfl
  | cons b rest ih =>
    have hb : b ≠ sep := fun e => h (e ▸ List.mem_cons_self b rest)
    have hr : sep ∉ rest := fun e => h (List.mem_cons_of_mem b e)
    simp [splitAt, hb, ih hr]

theorem cutEq_append (pre rest : GoString) (h : ∀ b ∈ pre, b.val ≠ 61) :
    cutEq (pre ++ Fin.ofNat 61 :: rest) = (pre, rest) := by
  induction pre with
  | nil => simp +decide [cutEq]
  | cons c tl ih =>
    have hc : c.val ≠ 61 := h c (List.mem_cons_self c tl)
    have htl : ∀ b ∈ tl, b.val ≠ 61 := fun b hb => h b (List.mem_cons_of_mem c hb)
    simp [cutEq, hc, ih htl]

set_option maxRecDepth 20000 in
theorem Encode_message (data : GoString) :
    Values.Encode [(ascii "message", [data])] = ascii "message" ++ Fin.ofNat 61 :: QueryEscape data := by
  have h : QueryEscape (ascii "message") = ascii "message" := by decide
  simp [Values.Encode, joinWith, h]

set_option maxRecDepth 20000 in
theorem ParseQuery_Encode_message (data : GoString) :
    ParseQuery (Values.Encode [(ascii "message", [data])]) = ([(ascii "message", [data])], none) := by
  rw [Encode_message]
  have hmsg : ∀ b ∈ ascii "message", b.val ≠ 38 ∧ b.val ≠ 59 ∧ b.val ≠ 61 := by decide
  have hamp : (Fin.ofNat 38 : Byte) ∉ ascii "message" ++ Fin.ofNat 61 :: QueryEscape data := by
    intro hmem
    rcases List.mem_append.mp hmem with h | h
    · exact (hmsg _ h).1 rfl
    · rcases List.mem_cons.mp h with h | h
      · exact absurd h (by decide)
      · exact (QueryEscape_no_separator data _ h).1 rfl
  have hsemi : (Fin.ofNat 59 : Byte) ∉ ascii "message" ++ Fin.ofNat 61 :: QueryEscape data := by
    intro hmem
    rcases List.mem_append.mp hmem with h | h
    · exact (hmsg _ h).2.1 rfl
    · rcases List.mem_cons.mp h with h | h
      · exact absurd h (by decide)
      · exact (QueryEscape_no_separator data _ h).2 rfl
  have hne : ascii "message" ++ Fin.ofNat 61 :: QueryEscape data ≠ [] := by
    intro e
    have := congrArg List.length e
    simp [ascii] at this
  have hkey : QueryUnescape (ascii "message") = Except.ok (ascii "message") := by rfl
  unfold ParseQuery
  rw [splitAt_of_not_mem _ _ hamp]
  simp only [List.foldl_cons, List.foldl_nil, parsePiece, if_neg hsemi, if_neg hne]
  rw [cutEq_append _ _ (fun b hb => (hmsg b hb).2.2)]
  simp only [hkey, QueryUnescape_QueryEscape, Values.add]

theorem outboundCalls_append (xs ys : List Event) :
    outboundCalls (xs ++ ys) = outboundCalls xs ++ outboundCalls ys := by
  induction xs with
  | nil => rfl
  | cons x tl ih => cases x <;> simp [outboundCalls, ih]

theorem outboundCalls_CallApi (scan : List Byte → Except GoString JValue) (c : Consumer)
    (data : GoString) (post : Except GoString HTTPResponse) :
    outboundCalls (CallApi scan c data post) = [(c.apiEndpoint, [(ascii "message", [data])])] := by
  unfold CallApi CallApiBody
  cases post with
  | error e => simp [outboundCalls]
  | ok resp =>
    cases hb : resp.Body with
    | error e => simp [outboundCalls, hb]
    | ok body =>
      cases hu : Unmarshal scan body ⟨0, []⟩ with
      | error e => simp [outboundCalls, hb, hu]
      | ok r =>
        by_cases hc : r.Code = 0 <;> simp [outboundCalls, hb, hu, hc]


/-! ## The steps of one consumer -/

theorem semReceives_CallApi (scan : List Byte → Except GoString JValue) (c : Consumer)
    (data : GoString) (post : Except GoString HTTPResponse) :
    semReceives (CallApi scan c data post) = 1 := by
  have h : semReceives (CallApi scan c data post)
      = semReceives (CallApiBody scan c data post ++ [Event.recvSem]) := rfl
  rw [h, semReceives_append, semReceives_CallApiBody]
  rfl

theorem runEvents_eq (evs : List Event) (ch : Chan) :
    runEvents evs ch =
      if semReceives evs ≤ ch.len then some ⟨ch.cap, ch.len - semReceives evs⟩ else none := by
  induction evs generalizing ch with
  | nil => simp [runEvents, semReceives]
  | cons e rest ih =>
    cases e with
    | recvSem =>
      simp only [runEvents, semReceives, Chan.recv]
      by_cases h : 0 < ch.len
      · simp only [h, if_true, ih]
        by_cases h2 : semReceives rest + 1 ≤ ch.len
        · have h3 : semReceives rest ≤ ch.len - 1 := by omega
          simp [h2, h3]
          omega
        · have h3 : ¬ semReceives rest ≤ ch.len - 1 := by omega
          simp [h2, h3]
      · have h2 : ¬ semReceives rest + 1 ≤ ch.len := by omega
        simp [h, h2]
    | logf e => simp [runEvents, semReceives, ih]
    | PostForm u d => simp [runEvents, semReceives, ih]
    | ReadAll => simp [runEvents, semReceives, ih]
    | Unmarshal b => simp [runEvents, semReceives, ih]
    | Close => simp [runEvents, semReceives, ih]

theorem runEvents_CallApi (scan : List Byte → Except GoString JValue) (c : Consumer)
    (data : GoString) (post : Except GoString HTTPResponse) (ch : Chan) :
    runEvents (CallApi scan c data post) ch =
      if 1 ≤ ch.len then some ⟨ch.cap, ch.len - 1⟩ else none := by
  rw [runEvents_eq, semReceives_CallApi]

theorem step_next_iff (scan : List Byte → Except GoString JValue) (c : Consumer) (s s1 : State) :
    step scan c Action.next s = some s1 ↔
      s.thread.loop = Loop.ranging ∧
      ((s.thread.feed = [] ∧ s1 = { s with thread := { s.thread with loop := Loop.returned } }) ∨
       ∃ m rest, s.thread.feed = m :: rest ∧
         s1 = { s with thread := { s.thread with feed := rest, loop := Loop.sending m } }) := by
  obtain ⟨sem, ⟨feed, loop, tasks, launched, sends, receives, log⟩⟩ := s
  cases loop with
  | ranging =>
    cases feed with
    | nil => simp [step, eq_comm]
    | cons m rest =>
      simp only [step, Option.some.injEq, true_and, reduceCtorEq, false_and, false_or]
      exact ⟨fun h => ⟨m, rest, rfl, h.symm⟩, fun ⟨_, _, e, h⟩ => by cases e; exact h.symm⟩
  | sending m => simp [step]
  | spawning m => simp [step]
  | returned => simp [step]

theorem step_send_iff (scan : List Byte → Except GoString JValue) (c : Consumer) (s s1 : State) :
    step scan c Action.send s = some s1 ↔
      ∃ m, s.thread.loop = Loop.sending m ∧ s.sem.len < s.sem.cap ∧
        s1 = { sem := { s.sem with len := s.sem.len + 1 },
               thread := { s.thread with loop := Loop.spawning m, sends := s.thread.sends + 1 } } := by
  obtain ⟨⟨cap, len⟩, ⟨feed, loop, tasks, launched, sends, receives, log⟩⟩ := s
  cases loop <;> by_cases h : len < cap <;> simp [step, Chan.send, h, eq_comm]

theorem step_go_iff (scan : List Byte → Except GoString JValue) (c : Consumer) (s s1 : State) :
    step scan c Action.go s = some s1 ↔
      ∃ m, s.thread.loop = Loop.spawning m ∧
        s1 = { s with thread := { s.thread with
                 loop := Loop.ranging,
                 tasks := s.thread.tasks ++ [m.Payload],
                 launched := s.thread.launched ++ [m.Payload] } } := by
  obtain ⟨sem, ⟨feed, loop, tasks, launched, sends, receives, log⟩⟩ := s
  cases loop <;> simp [step, eq_comm]

theorem step_ret_iff (scan : List Byte → Except GoString JValue) (c : Consumer) (s s1 : State)
    (i : Nat) (post : Except GoString HTTPResponse) :
    step scan c (Action.ret i post) s = some s1 ↔
      ∃ data, s.thread.tasks[i]? = some data ∧ 1 ≤ s.sem.len ∧
        s1 = { sem := { s.sem with len := s.sem.len - 1 },
               thread := { s.thread with
                 tasks := s.thread.tasks.eraseIdx i,
                 receives := s.thread.receives + 1,
                 log := s.thread.log ++ CallApi scan c data post } } := by
  obtain ⟨⟨cap, len⟩, ⟨feed, loop, tasks, launched, sends, receives, log⟩⟩ := s
  simp only [step]
  cases ht : tasks[i]? with
  | none => simp
  | some data =>
    by_cases h : 1 ≤ len <;> simp [runEvents_CallApi, semReceives_CallApi, h, eq_comm]


/-! ## The invariant of one consumer -/

theorem Inv_init (N : Nat) (c : Consumer) (msgs : List Message) : Inv N msgs (initState N c msgs) := by
  constructor <;> simp [initState, startThread, held, pending]

theorem Inv_step {N : Nat} {msgs : List Message} {scan : List Byte → Except GoString JValue}
    {c : Consumer} {a : Action} {s s1 : State} (h : Inv N msgs s)
    (hs : step scan c a s = some s1) : Inv N msgs s1 := by
  obtain ⟨⟨cap, len⟩, ⟨feed, loop, tasks, launched, sends, receives, log⟩⟩ := s
  obtain ⟨hcap, hlen, hle, hsends, hrecv, hpulled, hclosed⟩ := h
  simp only at hcap hlen hle hsends hrecv hpulled hclosed
  cases a with
  | next =>
    rw [step_next_iff] at hs
    obtain ⟨hl, hs | ⟨m, rest, hf, hs⟩⟩ := hs
    · obtain ⟨hf, hs⟩ := hs
      simp only at hl hf
      subst hl hf hs
      constructor <;> simp_all [held, pending]
    · simp only at hl hf
      subst hl hf hs
      constructor <;> simp_all [held, pending]
  | send =>
    rw [step_send_iff] at hs
    obtain ⟨m, hl, hlt, hs⟩ := hs
    simp only at hl hlt
    subst hl hs
    constructor <;> simp_all [held, pending]
    omega
  | go =>
    rw [step_go_iff] at hs
    obtain ⟨m, hl, hs⟩ := hs
    simp only at hl
    subst hl hs
    constructor <;> simp_all [held, pending]
    omega
  | ret i post =>
    rw [step_ret_iff] at hs
    obtain ⟨data, ht, hge, hs⟩ := hs
    simp only at ht hge
    subst hs
    have hi : i < tasks.length := by
      rcases Nat.lt_or_ge i tasks.length with h | h
      · exact h
      · rw [List.getElem?_eq_none h] at ht
        cases ht
    have he : (tasks.eraseIdx i).length = tasks.length - 1 := by
      rw [List.length_eraseIdx, if_pos hi]
    constructor <;> simp_all <;> omega

theorem Inv_run {N : Nat} {msgs : List Message} {scan : List Byte → Except GoString JValue}
    {c : Consumer} (acts : List Action) {s s1 : State} (h : Inv N msgs s)
    (hr : run scan c acts s = some s1) : Inv N msgs s1 := by
  induction acts generalizing s with
  | nil =>
    simp only [run, Option.some.injEq] at hr
    exact hr ▸ h
  | cons a rest ih =>
    simp only [run] at hr
    cases hs : step scan c a s with
    | none => simp [hs] at hr
    | some s2 =>
      rw [hs] at hr
      exact ih (Inv_step h hs) hr

theorem potential_step {scan : List Byte → Except GoString JValue} {c : Consumer} {a : Action}
    {s s1 : State} (hs : step scan c a s = some s1) :
    potential s1.thread + 1 = potential s.thread := by
  obtain ⟨⟨cap, len⟩, ⟨feed, loop, tasks, launched, sends, receives, log⟩⟩ := s
  cases a with
  | next =>
    rw [step_next_iff] at hs
    obtain ⟨hl, hs | ⟨m, rest, hf, hs⟩⟩ := hs
    · obtain ⟨hf, hs⟩ := hs
      simp only at hl hf
      subst hl hf hs
      simp [potential]
    · simp only at hl hf
      subst hl hf hs
      simp [potential]
      omega
  | send =>
    rw [step_send_iff] at hs
    obtain ⟨m, hl, hlt, hs⟩ := hs
    simp only at hl hlt
    subst hl hs
    simp [potential]
  | go =>
    rw [step_go_iff] at hs
    obtain ⟨m, hl, hs⟩ := hs
    simp only at hl
    subst hl hs
    simp [potential]
    omega
  | ret i post =>
    rw [step_ret_iff] at hs
    obtain ⟨data, ht, hge, hs⟩ := hs
    simp only at ht hge
    subst hs
    have hi : i < tasks.length := by
      rcases Nat.lt_or_ge i tasks.length with h | h
      · exact h
      · rw [List.getElem?_eq_none h] at ht
        cases ht
    have he : (tasks.eraseIdx i).length = tasks.length - 1 := by
      rw [List.length_eraseIdx, if_pos hi]
    simp only [potential, he]
    omega

theorem potential_run {scan : List Byte → Except GoString JValue} {c : Consumer}
    (acts : List Action) {s s1 : State} (hr : run scan c acts s = some s1) :
    potential s1.thread + acts.length = potential s.thread := by
  induction acts generalizing s with
  | nil =>
    simp only [run, Option.some.injEq] at hr
    simp [hr]
  | cons a rest ih =>
    simp only [run] at hr
    cases hs : step scan c a s with
    | none => simp [hs] at hr
    | some s2 =>
      rw [hs] at hr
      have h1 := ih hr
      have h2 := potential_step hs
      simp only [List.length_cons]
      omega

/-- Unless the loop has returned and every `CallApi` has returned, a consumer of positive
capacity can take a step. -/
theorem progress {N : Nat} {msgs : List Message} (scan : List Byte → Except GoString JValue)
    (c : Consumer) {s : State} (hN : 0 < N) (h : Inv N msgs s) :
    (s.thread.loop = Loop.returned ∧ s.thread.tasks = []) ∨
      ∃ a s1, step scan c a s = some s1 := by
  obtain ⟨⟨cap, len⟩, ⟨feed, loop, tasks, launched, sends, receives, log⟩⟩ := s
  obtain ⟨hcap, hlen, hle, hsends, hrecv, hpulled, hclosed⟩ := h
  simp only at hcap hlen hle hsends hrecv hpulled hclosed
  have hret : tasks ≠ [] → ∃ a s1, step scan c a
      ⟨⟨cap, len⟩, ⟨feed, loop, tasks, launched, sends, receives, log⟩⟩ = some s1 := by
    intro hne
    obtain ⟨d, tl, rfl⟩ := List.exists_cons_of_ne_nil hne
    refine ⟨Action.ret 0 (Except.error []), _, (step_ret_iff _ _ _ _ _ _).mpr ⟨d, by simp, ?_, rfl⟩⟩
    simp only [List.length_cons] at hlen
    simp only
    omega
  cases loop with
  | ranging =>
    right
    cases feed with
    | nil => exact ⟨Action.next, _, (step_next_iff _ _ _ _).mpr ⟨rfl, Or.inl ⟨rfl, rfl⟩⟩⟩
    | cons m rest =>
      exact ⟨Action.next, _, (step_next_iff _ _ _ _).mpr ⟨rfl, Or.inr ⟨m, rest, rfl, rfl⟩⟩⟩
  | sending m =>
    right
    by_cases hfull : len < cap
    · exact ⟨Action.send, _, (step_send_iff _ _ _ _).mpr ⟨m, rfl, hfull, rfl⟩⟩
    · apply hret
      intro e
      subst e
      simp [held] at hlen
      omega
  | spawning m =>
    right
    exact ⟨Action.go, _, (step_go_iff _ _ _ _).mpr ⟨m, rfl, rfl⟩⟩
  | returned =>
    by_cases hne : tasks = []
    · left
      exact ⟨rfl, hne⟩
    · right
      exact hret hne


/-! ## Decoding without a `code` member -/

theorem decodeMember_code (st : Response × Option GoString) (kv : GoString × JValue)
    (h : keyMatches kv.1 "code" = false) : (decodeMember st kv).1.Code = st.1.Code := by
  unfold decodeMember
  simp only [h, Bool.false_eq_true, if_false]
  split
  · split <;> rfl
  · rfl

theorem foldl_decodeMember_code (members : List (GoString × JValue))
    (st : Response × Option GoString)
    (h : ∀ kv ∈ members, keyMatches kv.1 "code" = false) :
    (members.foldl decodeMember st).1.Code = st.1.Code := by
  induction members generalizing st with
  | nil => rfl
  | cons kv rest ih =>
    simp only [List.foldl_cons]
    rw [ih _ (fun kv1 h1 => h kv1 (List.mem_cons_of_mem kv h1)),
      decodeMember_code st kv (h kv (List.mem_cons_self kv rest))]

theorem decodeValue_code (v : JValue) (r : Response)
    (hv : v = JValue.null ∨
      ∃ members, v = JValue.object members ∧ ∀ kv ∈ members, keyMatches kv.1 "code" = false)
    (h : decodeValue v ⟨0, []⟩ = Except.ok r) : r.Code = 0 := by
  rcases hv with rfl | ⟨members, rfl, hm⟩
  · simp only [decodeValue, Except.ok.injEq] at h
    rw [← h]
  · have hc := foldl_decodeMember_code members (⟨0, []⟩, none) hm
    simp only [decodeValue] at h
    split at h
    · rename_i r1 heq
      simp only [Except.ok.injEq] at h
      rw [heq] at hc
      rw [← h]
      exact hc
    · cases h

/-! ## One consumer: what can follow a stall -/

theorem launched_step {scan : List Byte → Except GoString JValue} {c : Consumer} {a : Action}
    {s s1 : State} (hs : step scan c a s = some s1) :
    ∃ more, s1.thread.launched = s.thread.launched ++ more := by
  cases a with
  | next =>
    rw [step_next_iff] at hs
    obtain ⟨-, hs | ⟨m, rest, -, hs⟩⟩ := hs
    · obtain ⟨-, hs⟩ := hs
      exact ⟨[], by simp [hs]⟩
    · exact ⟨[], by simp [hs]⟩
  | send =>
    rw [step_send_iff] at hs
    obtain ⟨m, -, -, hs⟩ := hs
    exact ⟨[], by simp [hs]⟩
  | go =>
    rw [step_go_iff] at hs
    obtain ⟨m, -, hs⟩ := hs
    exact ⟨[m.Payload], by simp [hs]⟩
  | ret i post =>
    rw [step_ret_iff] at hs
    obtain ⟨data, -, -, hs⟩ := hs
    exact ⟨[], by simp [hs]⟩

theorem stalled_step {scan : List Byte → Except GoString JValue} {c : Consumer} {a : Action}
    {s s1 : State} {m : Message} {L : List GoString}
    (h : (s.thread.launched = L ∧
          (s.thread.loop = Loop.sending m ∨ s.thread.loop = Loop.spawning m)) ∨
         ∃ more, s.thread.launched = L ++ m.Payload :: more)
    (hs : step scan c a s = some s1) :
    (s1.thread.launched = L ∧
      (s1.thread.loop = Loop.sending m ∨ s1.thread.loop = Loop.spawning m)) ∨
     ∃ more, s1.thread.launched = L ++ m.Payload :: more := by
  rcases h with ⟨hL, hl⟩ | ⟨more, hL⟩
  · cases a with
    | next =>
      rw [step_next_iff] at hs
      obtain ⟨hr, -⟩ := hs
      rcases hl with hl | hl <;> rw [hl] at hr <;> cases hr
    | send =>
      rw [step_send_iff] at hs
      obtain ⟨m1, hl1, -, hs⟩ := hs
      rcases hl with hl | hl
      · rw [hl] at hl1
        cases hl1
        left
        subst hs
        exact ⟨hL, Or.inr rfl⟩
      · rw [hl] at hl1
        cases hl1
    | go =>
      rw [step_go_iff] at hs
      obtain ⟨m1, hl1, hs⟩ := hs
      rcases hl with hl | hl
      · rw [hl] at hl1
        cases hl1
      · rw [hl] at hl1
        cases hl1
        right
        subst hs
        exact ⟨[], by simp [hL]⟩
    | ret i post =>
      rw [step_ret_iff] at hs
      obtain ⟨data, -, -, hs⟩ := hs
      left
      subst hs
      exact ⟨hL, hl⟩
  · right
    obtain ⟨more1, h1⟩ := launched_step hs
    exact ⟨more ++ more1, by simp [h1, hL]⟩

theorem stalled_run {scan : List Byte → Except GoString JValue} {c : Consumer}
    (acts : List Action) {s s1 : State} {m : Message} {L : List GoString}
    (h : (s.thread.launched = L ∧
          (s.thread.loop = Loop.sending m ∨ s.thread.loop = Loop.spawning m)) ∨
         ∃ more, s.thread.launched = L ++ m.Payload :: more)
    (hr : run scan c acts s = some s1) :
    (s1.thread.launched = L ∧
      (s1.thread.loop = Loop.sending m ∨ s1.thread.loop = Loop.spawning m)) ∨
     ∃ more, s1.thread.launched = L ++ m.Payload :: more := by
  induction acts generalizing s with
  | nil =>
    simp only [run, Option.some.injEq] at hr
    exact hr ▸ h
  | cons a rest ih =>
    simp only [run] at hr
    cases hs : step scan c a s with
    | none => simp [hs] at hr
    | some s2 =>
      rw [hs] at hr
      exact ih (stalled_step h hs) hr

/-- From every reachable state of a consumer of positive capacity some interleaving leads
to the state in which the loop has returned and every `CallApi` has returned. -/
theorem can_finish {N : Nat} {msgs : List Message} (scan : List Byte → Except GoString JValue)
    (c : Consumer) (hN : 0 < N) (n : Nat) :
    ∀ s : State, Inv N msgs s → potential s.thread ≤ n →
      ∃ acts s1, run scan c acts s = some s1 ∧ s1.thread.loop = Loop.returned ∧
        s1.thread.tasks = [] := by
  induction n with
  | zero =>
    intro s h hp
    rcases progress scan c hN h with hdone | ⟨a, s1, hs⟩
    · exact ⟨[], s, rfl, hdone.1, hdone.2⟩
    · have := potential_step hs
      omega
  | succ n ih =>
    intro s h hp
    rcases progress scan c hN h with hdone | ⟨a, s1, hs⟩
    · exact ⟨[], s, rfl, hdone.1, hdone.2⟩
    · have hpot := potential_step hs
      obtain ⟨acts, s2, hr, hl, ht⟩ := ih s1 (Inv_step h hs) (by omega)
      refine ⟨a :: acts, s2, ?_, hl, ht⟩
      simp only [run, hs]
      exact hr


/-! ## `main`: the consumers it builds -/

theorem NewConsumer_eq (limit : Nat) (heap : Heap) (channel : GoString) (n : Int)
    (apiEndpoint : GoString) (c : Consumer) (heap1 : Heap)
    (h : NewConsumer limit heap channel n apiEndpoint = some (c, heap1)) :
    (0 ≤ n ∧ n ≤ (limit : Int)) ∧ c = ⟨channel, heap.length, apiEndpoint⟩ ∧
      heap1 = heap ++ [⟨n.toNat, 0⟩] := by
  unfold NewConsumer makeChan at h
  by_cases hn : n < 0 ∨ (limit : Int) < n
  · simp [hn] at h
  · simp only [hn, if_false, Option.some.injEq, Prod.mk.injEq] at h
    exact ⟨by omega, h.1.symm, h.2.symm⟩

/-- What `addConsumers` returns: one new consumer and one new channel for every table,
in order; the semaphore of the `j`-th is the `j`-th new channel, empty and of the
capacity the table gives, which is not negative and not above `limit`. -/
theorem addConsumers_spec (limit : Nat) (channels : List TomlMap) :
    ∀ (heap0 : Heap) (cs0 : List Consumer) (heap : Heap) (cs : List Consumer),
      addConsumers limit channels (heap0, cs0) = some (heap, cs) →
      ∃ (news : List Consumer) (ext : List Chan),
        cs = cs0 ++ news ∧ heap = heap0 ++ ext ∧
        news.length = channels.length ∧ ext.length = channels.length ∧
        ∀ (j : Nat) (cfg : TomlMap), channels[j]? = some cfg →
          ∃ (n : Int) (c : Consumer), assertInt64 (cfg.index "concurrency") = some n ∧
            (0 ≤ n ∧ n ≤ (limit : Int)) ∧
            news[j]? = some c ∧ c.sem = heap0.length + j ∧
            ext[j]? = some ⟨n.toNat, 0⟩ := by
  induction channels with
  | nil =>
    intro heap0 cs0 heap cs h
    simp only [addConsumers, Option.some.injEq, Prod.mk.injEq] at h
    exact ⟨[], [], by simp [h.2], by simp [h.1], rfl, rfl, by simp⟩
  | cons cfg0 rest ih =>
    intro heap0 cs0 heap cs h
    simp only [addConsumers] at h
    cases hname : assertString (cfg0.index "name") with
    | none => simp [hname] at h
    | some name =>
      cases hconc : assertInt64 (cfg0.index "concurrency") with
      | none => simp [hname, hconc] at h
      | some n =>
        cases hep : assertString (cfg0.index "api_endpoint") with
        | none => simp [hname, hconc, hep] at h
        | some ep =>
          simp only [hname, hconc, hep] at h
          cases hnew : NewConsumer limit heap0 name n ep with
          | none => simp [hnew] at h
          | some p =>
            obtain ⟨c0, heap1⟩ := p
            simp only [hnew, AddConsumer] at h
            obtain ⟨hn0, hc0, hheap1⟩ := NewConsumer_eq _ _ _ _ _ _ _ hnew
            obtain ⟨news, ext, hcs, hheap, hlen1, hlen2, hall⟩ := ih heap1 (cs0 ++ [c0]) heap cs h
            refine ⟨c0 :: news, ⟨n.toNat, 0⟩ :: ext, ?_, ?_, ?_, ?_, ?_⟩
            · simp [hcs]
            · simp [hheap, hheap1]
            · simp [hlen1]
            · simp [hlen2]
            · intro j cfg hj
              cases j with
              | zero =>
                simp only [List.getElem?_cons_zero, Option.some.injEq] at hj
                subst hj
                exact ⟨n, c0, hconc, hn0, by simp, by simp [hc0], by simp⟩
              | succ j =>
                simp only [List.getElem?_cons_succ] at hj
                obtain ⟨n1, c1, h1, h2, h3, h4, h5⟩ := hall j cfg hj
                refine ⟨n1, c1, h1, h2, by simp [h3], ?_, by simp [h5]⟩
                rw [h4, hheap1]
                simp
                omega

theorem assertTables_eq (cs : List (Option TomlMap)) (channels : List TomlMap)
    (h : assertTables cs = some channels) : cs = channels.map some := by
  induction cs generalizing channels with
  | nil =>
    simp only [assertTables, Option.some.injEq] at h
    subst h
    rfl
  | cons c rest ih =>
    cases c with
    | none => simp [assertTables] at h
    | some t =>
      simp only [assertTables] at h
      cases hr : assertTables rest with
      | none => simp [hr] at h
      | some ts =>
        simp only [hr, Option.some.injEq] at h
        subst h
        simp [ih ts hr]

/-- The consumers of the world that `main` starts: what `addConsumers_spec` says, read
off the world. -/
theorem main_spec (limit : Nat) (config : Option (List (Option TomlMap)))
    (feed : Consumer → List Message) (w : World) (h : main limit config feed = some w) :
    ∃ channels : List TomlMap, config = some (channels.map some) ∧
    w.threads.length = channels.length ∧ w.chans.length = channels.length ∧
    (∀ (j : Nat) (cfg : TomlMap), channels[j]? = some cfg →
      ∃ (n : Int) (c : Consumer), assertInt64 (cfg.index "concurrency") = some n ∧
        (0 ≤ n ∧ n ≤ (limit : Int)) ∧
        w.threads[j]? = some (c, startThread c (feed c)) ∧ c.sem = j ∧
        w.chans[j]? = some ⟨n.toNat, 0⟩) ∧
    (∀ (j : Nat) (c : Consumer) (t : Thread), w.threads[j]? = some (c, t) → c.sem = j) := by
  unfold main at h
  cases hload : loadConfig config with
  | none => simp [hload] at h
  | some channels =>
  have hconfig : config = some (channels.map some) := by
    cases config with
    | none => simp [loadConfig] at hload
    | some cs =>
      simp only [loadConfig] at hload
      rw [assertTables_eq cs channels hload]
  simp only [hload] at h
  refine ⟨channels, hconfig, ?_⟩
  cases hadd : addConsumers limit channels ([], []) with
  | none => simp [hadd] at h
  | some p =>
    obtain ⟨heap, cs⟩ := p
    simp only [hadd, Option.some.injEq] at h
    subst h
    obtain ⟨news, ext, hcs, hheap, hlen1, hlen2, hall⟩ := addConsumers_spec limit channels [] [] heap cs hadd
    simp only [List.nil_append] at hcs hheap
    subst hcs hheap
    have hthreads : ∀ (j : Nat) (cfg : TomlMap), channels[j]? = some cfg →
        ∃ (n : Int) (c : Consumer), assertInt64 (cfg.index "concurrency") = some n ∧
          (0 ≤ n ∧ n ≤ (limit : Int)) ∧
          (Run heap cs feed).threads[j]? = some (c, startThread c (feed c)) ∧ c.sem = j ∧
          (Run heap cs feed).chans[j]? = some ⟨n.toNat, 0⟩ := by
      intro j cfg hj
      obtain ⟨n, c, h1, h2, h3, h4, h5⟩ := hall j cfg hj
      refine ⟨n, c, h1, h2, ?_, by simpa using h4, h5⟩
      simp [Run, h3]
    refine ⟨by simp [Run, hlen1], by simp [Run, hlen2], hthreads, ?_⟩
    intro j c t hj
    have hjlt : j < channels.length := by
      have := (List.getElem?_eq_some_iff.mp hj).1
      simpa [Run, hlen1] using this
    obtain ⟨n, c1, -, -, h3, h4, -⟩ := hthreads j channels[j] (List.getElem?_eq_getElem hjlt)
    rw [hj] at h3
    cases h3
    exact h4


/-! ## The world: steps of one consumer and the views of the others -/

theorem view_eq_some {w : World} {j : Nat} {c : Consumer} {s : State}
    (h : w.view j = some (c, s)) :
    w.threads[j]? = some (c, s.thread) ∧ w.chans[c.sem]? = some s.sem := by
  unfold World.view at h
  cases ht : w.threads[j]? with
  | none => simp [ht] at h
  | some p =>
    obtain ⟨c1, t1⟩ := p
    simp only [ht] at h
    cases hc : w.chans[c1.sem]? with
    | none => simp [hc] at h
    | some ch =>
      simp only [hc, Option.some.injEq, Prod.mk.injEq] at h
      obtain ⟨rfl, rfl⟩ := h
      exact ⟨rfl, hc⟩

theorem worldStep_eq_some {scan : List Byte → Except GoString JValue} {i : Nat} {a : Action}
    {w w1 : World} (h : World.step scan i a w = some w1) :
    ∃ c s s1, w.view i = some (c, s) ∧ step scan c a s = some s1 ∧
      w1 = ⟨w.chans.set c.sem s1.sem, w.threads.set i (c, s1.thread)⟩ := by
  unfold World.step at h
  cases hv : w.view i with
  | none => simp [hv] at h
  | some p =>
    obtain ⟨c, s⟩ := p
    simp only [hv] at h
    cases hs : PushService.step scan c a s with
    | none => simp [hs] at h
    | some s1 =>
      simp only [hs, Option.some.injEq] at h
      exact ⟨c, s, s1, rfl, hs, h.symm⟩

theorem WellFormed_step {scan : List Byte → Except GoString JValue} {i : Nat} {a : Action}
    {w w1 : World} (hw : WellFormed w) (h : World.step scan i a w = some w1) :
    WellFormed w1 := by
  obtain ⟨c, s, s1, hv, -, rfl⟩ := worldStep_eq_some h
  obtain ⟨ht, -⟩ := view_eq_some hv
  refine ⟨by simpa using hw.1, ?_⟩
  intro j c1 t1 hj
  simp only at hj
  by_cases hij : i = j
  · subst hij
    have hlt : i < w.threads.length := (List.getElem?_eq_some_iff.mp ht).1
    rw [List.getElem?_set_self hlt] at hj
    simp only [Option.some.injEq, Prod.mk.injEq] at hj
    rw [← hj.1]
    exact hw.2 i c s.thread ht
  · rw [List.getElem?_set_ne hij] at hj
    exact hw.2 j c1 t1 hj

theorem WellFormed_run {scan : List Byte → Except GoString JValue}
    (sched : List (Nat × Action)) {w w1 : World} (hw : WellFormed w)
    (h : World.run scan sched w = some w1) : WellFormed w1 := by
  induction sched generalizing w with
  | nil =>
    simp only [World.run, Option.some.injEq] at h
    exact h ▸ hw
  | cons x rest ih =>
    obtain ⟨i, a⟩ := x
    simp only [World.run] at h
    cases hs : World.step scan i a w with
    | none => simp [hs] at h
    | some w2 =>
      rw [hs] at h
      exact ih (WellFormed_step hw hs) h

theorem WellFormed_main {limit : Nat} {config : Option (List (Option TomlMap))}
    {feed : Consumer → List Message} {w : World}
    (h : main limit config feed = some w) : WellFormed w := by
  obtain ⟨channels, -, h1, h2, -, h4⟩ := main_spec limit config feed w h
  exact ⟨by rw [h1, h2], h4⟩

/-- A step of consumer `i` leaves the view of every other consumer as it was. -/
theorem view_frame {scan : List Byte → Except GoString JValue} {i : Nat} {a : Action}
    {w w1 : World} (hw : WellFormed w) (h : World.step scan i a w = some w1)
    (j : Nat) (hj : j ≠ i) : w1.view j = w.view j := by
  obtain ⟨c, s, s1, hv, -, rfl⟩ := worldStep_eq_some h
  obtain ⟨ht, -⟩ := view_eq_some hv
  have hci : c.sem = i := hw.2 i c s.thread ht
  unfold World.view
  simp only
  rw [List.getElem?_set_ne (Ne.symm hj)]
  cases htj : w.threads[j]? with
  | none => rfl
  | some p =>
    obtain ⟨cj, tj⟩ := p
    have hcj : cj.sem = j := hw.2 j cj tj htj
    simp only
    rw [List.getElem?_set_ne (by rw [hci, hcj]; exact Ne.symm hj)]

/-- A step of consumer `i` is the step of `step` on its own view. -/
theorem view_own {scan : List Byte → Except GoString JValue} {i : Nat} {a : Action}
    {w w1 : World} (h : World.step scan i a w = some w1) :
    ∃ c s s1, w.view i = some (c, s) ∧ step scan c a s = some s1 ∧
      w1.view i = some (c, s1) := by
  obtain ⟨c, s, s1, hv, hs, rfl⟩ := worldStep_eq_some h
  obtain ⟨ht, hc⟩ := view_eq_some hv
  refine ⟨c, s, s1, hv, hs, ?_⟩
  have hlt : i < w.threads.length := (List.getElem?_eq_some_iff.mp ht).1
  have hlt2 : c.sem < w.chans.length := (List.getElem?_eq_some_iff.mp hc).1
  unfold World.view
  simp only
  rw [List.getElem?_set_self hlt]
  simp only
  rw [List.getElem?_set_self hlt2]

/-- An interleaving of all consumers is, for each consumer, an interleaving of its own
steps on its own view. -/
theorem view_run {scan : List Byte → Except GoString JValue} (sched : List (Nat × Action))
    {w0 w : World} (hw : WellFormed w0) (h : World.run scan sched w0 = some w)
    (j : Nat) (c : Consumer) (s0 : State) (hv : w0.view j = some (c, s0)) :
    ∃ acts s, run scan c acts s0 = some s ∧ w.view j = some (c, s) := by
  induction sched generalizing w0 s0 with
  | nil =>
    simp only [World.run, Option.some.injEq] at h
    subst h
    exact ⟨[], s0, rfl, hv⟩
  | cons x rest ih =>
    obtain ⟨i, a⟩ := x
    simp only [World.run] at h
    cases hs : World.step scan i a w0 with
    | none => simp [hs] at h
    | some w2 =>
      rw [hs] at h
      by_cases hij : j = i
      · subst hij
        obtain ⟨c1, s1, s2, hv1, hst, hv2⟩ := view_own hs
        rw [hv] at hv1
        simp only [Option.some.injEq, Prod.mk.injEq] at hv1
        obtain ⟨rfl, rfl⟩ := hv1
        obtain ⟨acts, s, hr, hvw⟩ := ih (WellFormed_step hw hs) h s2 hv2
        refine ⟨a :: acts, s, ?_, hvw⟩
        simp only [run, hst]
        exact hr
      · have hv2 : w2.view j = some (c, s0) := by
          rw [view_frame hw hs j hij]
          exact hv
        exact ih (WellFormed_step hw hs) h s0 hv2

theorem threads_length_run {scan : List Byte → Except GoString JValue}
    (sched : List (Nat × Action)) {w0 w : World} (h : World.run scan sched w0 = some w) :
    w.threads.length = w0.threads.length := by
  induction sched generalizing w0 with
  | nil =>
    simp only [World.run, Option.some.injEq] at h
    rw [h]
  | cons x rest ih =>
    obtain ⟨i, a⟩ := x
    simp only [World.run] at h
    cases hs : World.step scan i a w0 with
    | none => simp [hs] at h
    | some w2 =>
      rw [hs] at h
      obtain ⟨c, s, s1, -, -, rfl⟩ := worldStep_eq_some hs
      rw [ih h]
      simp

/-- The admission bound in the whole program: in every world reached from the one `main`
starts, by whatever interleaving of all consumers, no consumer has more running `CallApi`
calls, or more values in its semaphore, than the capacity of its semaphore. -/
theorem running_calls_le_capacity (scan : List Byte → Except GoString JValue)
    (limit : Nat) (config : Option (List (Option TomlMap))) (feed : Consumer → List Message)
    (w0 : World) (hmain : main limit config feed = some w0) (sched : List (Nat × Action)) (w : World)
    (hrun : World.run scan sched w0 = some w) (j : Nat) (c : Consumer) (s : State)
    (hv : w.view j = some (c, s)) :
    s.thread.tasks.length ≤ s.sem.cap ∧ s.sem.len ≤ s.sem.cap := by
  obtain ⟨channels, -, h1, -, h3, -⟩ := main_spec limit config feed w0 hmain
  have hj : j < channels.length := by
    have := (List.getElem?_eq_some_iff.mp (view_eq_some hv).1).1
    rw [threads_length_run sched hrun, h1] at this
    exact this
  obtain ⟨n, c0, -, -, ht, hsem, hch⟩ := h3 j channels[j] (List.getElem?_eq_getElem hj)
  have hv0 : w0.view j = some (c0, initState n.toNat c0 (feed c0)) := by
    unfold World.view
    simp only [ht, hsem, hch, initState]
  obtain ⟨acts, s1, hr, hv1⟩ := view_run sched (WellFormed_main hmain) hrun j c0 _ hv0
  rw [hv] at hv1
  simp only [Option.some.injEq, Prod.mk.injEq] at hv1
  obtain ⟨rfl, rfl⟩ := hv1
  have hinv := Inv_run acts (Inv_init n.toNat c (feed c)) hr
  have h4 := hinv.len_eq
  have h5 := hinv.len_le
  have h6 := hinv.cap_eq
  constructor <;> omega


/-! ## The claims about `CallApi` -/

/-- C4 (response classification): `CallApi` checks, in this order, whether `PostForm`
failed, whether the body could not be read, whether the body could not be parsed, and
whether the parsed code is not zero. It logs at most one error-level entry: exactly the
transport entry when `PostForm` fails, exactly the read entry when the body cannot be
read, exactly the parse entry when `Unmarshal` fails, exactly one entry whose text
contains the message of the response when the code is not zero, and none when the code
is zero. -/
theorem response_classification (scan : List Byte → Except GoString JValue) (c : Consumer)
    (data : GoString) (post : Except GoString HTTPResponse) :
    (errorEntries (CallApi scan c data post)).length ≤ 1 ∧
    (∀ err, post = Except.error err →
      errorEntries (CallApi scan c data post)
        = [⟨LOG_ERROR, ascii "[%s] http post failed - %s", [c.channel, err]⟩]) ∧
    (∀ resp err, post = Except.ok resp → resp.Body = Except.error err →
      errorEntries (CallApi scan c data post)
        = [⟨LOG_ERROR, ascii "[%s] read response body failed - %s", [c.channel, data]⟩]) ∧
    (∀ resp body err, post = Except.ok resp → resp.Body = Except.ok body →
      Unmarshal scan body ⟨0, []⟩ = Except.error err →
      errorEntries (CallApi scan c data post)
        = [⟨LOG_ERROR, ascii "[%s] parse json response failed - %s %x",
            [c.channel, err, body]⟩]) ∧
    (∀ resp body r, post = Except.ok resp → resp.Body = Except.ok body →
      Unmarshal scan body ⟨0, []⟩ = Except.ok r → r.Code ≠ 0 →
      ∃ e, errorEntries (CallApi scan c data post) = [e] ∧
        e.format = ascii "[%s] json response tells error - %s" ∧ r.Message <:+: e.text) ∧
    (∀ resp body r, post = Except.ok resp → resp.Body = Except.ok body →
      Unmarshal scan body ⟨0, []⟩ = Except.ok r → r.Code = 0 →
      errorEntries (CallApi scan c data post) = []) := by
  refine ⟨?_, ?_, ?_, ?_, ?_, ?_⟩
  · cases post with
    | error err => rw [errorEntries_post_error]; simp
    | ok resp =>
      obtain ⟨b⟩ := resp
      cases b with
      | error err => rw [errorEntries_read_error]; simp
      | ok body =>
        cases hu : Unmarshal scan body ⟨0, []⟩ with
        | error err => rw [errorEntries_parse_error _ _ _ _ _ hu]; simp
        | ok r =>
          by_cases hc : r.Code = 0
          · rw [errorEntries_code_zero _ _ _ _ _ hu hc]; simp
          · rw [errorEntries_code_nonzero _ _ _ _ _ hu hc]; simp
  · intro err hp
    subst hp
    exact errorEntries_post_error scan c data err
  · intro resp err hp hb
    obtain ⟨b⟩ := resp
    simp only at hb
    subst hp hb
    exact errorEntries_read_error scan c data err
  · intro resp body err hp hb hu
    obtain ⟨b⟩ := resp
    simp only at hb
    subst hp hb
    exact errorEntries_parse_error scan c data body err hu
  · intro resp body r hp hb hu hc
    obtain ⟨b⟩ := resp
    simp only at hb
    subst hp hb
    refine ⟨_, errorEntries_code_nonzero scan c data body r hu hc, rfl, ?_⟩
    simp only [LogEntry.text, text_tells_error]
    exact ⟨ascii "[" ++ c.channel ++ ascii "] json response tells error - ", [], by simp⟩
  · intro resp body r hp hb hu hc
    obtain ⟨b⟩ := resp
    simp only at hb
    subst hp hb
    exact errorEntries_code_zero scan c data body r hu hc

/-- C6, as amended: on each of the four failure outcomes `CallApi` emits exactly one
error-level entry, and its text contains the topic. The entry for an unreadable body has
the operands (channel, payload) and its text contains the payload. The entries for the
other three outcomes have the operands (channel, transport error), (channel, parse
error, body) and (channel, message of the response); their texts contain the text of the
transport error, the text of the parse error and the body in hex, and the message of the
response; and, the payload being no operand of theirs, whenever the body was readable
or `PostForm` failed the error entries are the same whatever the payload is. Every
delivery starts with the debug call, which is given the payload as its format. -/
theorem failure_log_context (scan : List Byte → Except GoString JValue) (c : Consumer)
    (data : GoString) (post : Except GoString HTTPResponse) :
    (CallApi scan c data post).head? = some (Event.logf ⟨LOG_DEBUG, data, []⟩) ∧
    (∀ err, post = Except.error err →
      ∃ e, errorEntries (CallApi scan c data post) = [e] ∧ e.level = LOG_ERROR ∧
        e.args = [c.channel, err] ∧ c.channel <:+: e.text ∧ err <:+: e.text) ∧
    (∀ resp err, post = Except.ok resp → resp.Body = Except.error err →
      ∃ e, errorEntries (CallApi scan c data post) = [e] ∧ e.level = LOG_ERROR ∧
        e.args = [c.channel, data] ∧ c.channel <:+: e.text ∧ data <:+: e.text) ∧
    (∀ resp body err, post = Except.ok resp → resp.Body = Except.ok body →
      Unmarshal scan body ⟨0, []⟩ = Except.error err →
      ∃ e, errorEntries (CallApi scan c data post) = [e] ∧ e.level = LOG_ERROR ∧
        e.args = [c.channel, err, body] ∧ c.channel <:+: e.text ∧ err <:+: e.text ∧
        hexEncode body <:+: e.text) ∧
    (∀ resp body r, post = Except.ok resp → resp.Body = Except.ok body →
      Unmarshal scan body ⟨0, []⟩ = Except.ok r → r.Code ≠ 0 →
      ∃ e, errorEntries (CallApi scan c data post) = [e] ∧ e.level = LOG_ERROR ∧
        e.args = [c.channel, r.Message] ∧ c.channel <:+: e.text ∧ r.Message <:+: e.text) ∧
    ((∀ resp err, post = Except.ok resp → resp.Body ≠ Except.error err) →
      ∀ data2, errorEntries (CallApi scan c data2 post)
        = errorEntries (CallApi scan c data post)) := by
  refine ⟨rfl, ?_, ?_, ?_, ?_, ?_⟩
  · intro err hp
    subst hp
    refine ⟨_, errorEntries_post_error scan c data err, rfl, rfl, ?_, ?_⟩
    · simp only [LogEntry.text, text_post_failed]
      exact ⟨ascii "[", ascii "] http post failed - " ++ err, by simp⟩
    · simp only [LogEntry.text, text_post_failed]
      exact ⟨ascii "[" ++ c.channel ++ ascii "] http post failed - ", [], by simp⟩
  · intro resp err hp hb
    obtain ⟨b⟩ := resp
    simp only at hb
    subst hp hb
    refine ⟨_, errorEntries_read_error scan c data err, rfl, rfl, ?_, ?_⟩
    · simp only [LogEntry.text, text_read_failed]
      exact ⟨ascii "[", ascii "] read response body failed - " ++ data, by simp⟩
    · simp only [LogEntry.text, text_read_failed]
      exact ⟨ascii "[" ++ c.channel ++ ascii "] read response body failed - ", [], by simp⟩
  · intro resp body err hp hb hu
    obtain ⟨b⟩ := resp
    simp only at hb
    subst hp hb
    refine ⟨_, errorEntries_parse_error scan c data body err hu, rfl, rfl, ?_, ?_, ?_⟩
    · simp only [LogEntry.text, text_parse_failed]
      exact ⟨ascii "[", ascii "] parse json response failed - " ++
        (err ++ (ascii " " ++ hexEncode body)), by simp⟩
    · simp only [LogEntry.text, text_parse_failed]
      exact ⟨ascii "[" ++ c.channel ++ ascii "] parse json response failed - ",
        ascii " " ++ hexEncode body, by simp⟩
    · simp only [LogEntry.text, text_parse_failed]
      exact ⟨ascii "[" ++ c.channel ++ ascii "] parse json response failed - " ++ err
        ++ ascii " ", [], by simp⟩
  · intro resp body r hp hb hu hc
    obtain ⟨b⟩ := resp
    simp only at hb
    subst hp hb
    refine ⟨_, errorEntries_code_nonzero scan c data body r hu hc, rfl, rfl, ?_, ?_⟩
    · simp only [LogEntry.text, text_tells_error]
      exact ⟨ascii "[", ascii "] json response tells error - " ++ r.Message, by simp⟩
    · simp only [LogEntry.text, text_tells_error]
      exact ⟨ascii "[" ++ c.channel ++ ascii "] json response tells error - ", [], by simp⟩
  · intro hread data2
    cases post with
    | error err => rw [errorEntries_post_error, errorEntries_post_error]
    | ok resp =>
      obtain ⟨b⟩ := resp
      cases b with
      | error err => exact absurd rfl (hread ⟨Except.error err⟩ err rfl)
      | ok body =>
        cases hu : Unmarshal scan body ⟨0, []⟩ with
        | error err =>
          rw [errorEntries_parse_error _ _ _ _ _ hu, errorEntries_parse_error _ _ _ _ _ hu]
        | ok r =>
          by_cases hc : r.Code = 0
          · rw [errorEntries_code_zero _ _ _ _ _ hu hc, errorEntries_code_zero _ _ _ _ _ hu hc]
          · rw [errorEntries_code_nonzero _ _ _ _ _ hu hc,
              errorEntries_code_nonzero _ _ _ _ _ hu hc]

/-- C7 (outbound request shape): `CallApi` makes exactly one outbound call on every way
out, `PostForm` to the consumer's `apiEndpoint` with the single field `message` holding
the payload as its single value; the request is a POST to that endpoint with a form body,
and decoding that body with `ParseQuery` gives back the field `message` with the payload
unchanged and no error. -/
theorem outbound_request_shape (scan : List Byte → Except GoString JValue) (c : Consumer)
    (data : GoString) (post : Except GoString HTTPResponse) :
    outboundCalls (CallApi scan c data post) = [(c.apiEndpoint, [(ascii "message", [data])])] ∧
    (PostFormRequest c.apiEndpoint [(ascii "message", [data])]).Method = ascii "POST" ∧
    (PostFormRequest c.apiEndpoint [(ascii "message", [data])]).URL = c.apiEndpoint ∧
    (PostFormRequest c.apiEndpoint [(ascii "message", [data])]).ContentType
      = ascii "application/x-www-form-urlencoded" ∧
    ParseQuery (PostFormRequest c.apiEndpoint [(ascii "message", [data])]).Body
      = ([(ascii "message", [data])], none) :=
  ⟨outboundCalls_CallApi scan c data post, rfl, rfl, rfl, ParseQuery_Encode_message data⟩

/-- C10 (a missing code is success): when the body is the JSON value `null`, or an object
none of whose keys selects the field `code`, then `null` decodes without error, and
whenever `Unmarshal` succeeds the decoded `Code` is 0 and `CallApi` logs no error-level
entry, whatever the message is. -/
theorem missing_code_is_success (scan : List Byte → Except GoString JValue) (c : Consumer)
    (data : GoString) (body : List Byte) (v : JValue)
    (hscan : scan body = Except.ok v)
    (hv : v = JValue.null ∨
      ∃ members, v = JValue.object members ∧ ∀ kv ∈ members, keyMatches kv.1 "code" = false) :
    (v = JValue.null → Unmarshal scan body ⟨0, []⟩ = Except.ok ⟨0, []⟩) ∧
    (v = JValue.object [] → Unmarshal scan body ⟨0, []⟩ = Except.ok ⟨0, []⟩) ∧
    ∀ r, Unmarshal scan body ⟨0, []⟩ = Except.ok r →
      r.Code = 0 ∧ errorEntries (CallApi scan c data (Except.ok ⟨Except.ok body⟩)) = [] := by
  refine ⟨?_, ?_, ?_⟩
  · intro e
    subst e
    simp [Unmarshal, hscan, decodeValue]
  · intro e
    subst e
    simp [Unmarshal, hscan, decodeValue]
  · intro r hr
    have hc : r.Code = 0 := by
      simp only [Unmarshal, hscan] at hr
      exact decodeValue_code v r hv hr
    exact ⟨hc, errorEntries_code_zero scan c data body r hr hc⟩


/-! ## The claims about one consumer -/

/-- C1 (admission bound): for a consumer built by `NewConsumer` with concurrency `N > 0`
(its semaphore is the empty channel of capacity `N` that `NewConsumer` has made), in
every state reached by any interleaving of pulls, sends on `c.sem`, launches of `CallApi`
and returns of `CallApi`, on any feed, the number of `CallApi` calls launched and not yet
returned is at most `N`, and so is the number of values in the semaphore. -/
theorem admission_bound (scan : List Byte → Except GoString JValue) (limit : Nat)
    (heap : Heap) (channel : GoString) (N : Int) (apiEndpoint : GoString) (c : Consumer)
    (heap1 : Heap) (hN : 0 < N)
    (hnew : NewConsumer limit heap channel N apiEndpoint = some (c, heap1))
    (feed : List Message) (acts : List Action) (s : State)
    (hrun : run scan c acts (initState N.toNat c feed) = some s) :
    heap1[c.sem]? = some (initState N.toNat c feed).sem ∧
    (s.thread.tasks.length : Int) ≤ N ∧ (s.sem.len : Int) ≤ N := by
  obtain ⟨-, hc, hh⟩ := NewConsumer_eq _ _ _ _ _ _ _ hnew
  have hinv := Inv_run acts (Inv_init N.toNat c feed) hrun
  have h1 := hinv.len_eq
  have h2 := hinv.len_le
  have h3 : ((N.toNat : Nat) : Int) = N := Int.toNat_of_nonneg (le_of_lt hN)
  refine ⟨?_, by omega, by omega⟩
  subst hc hh
  simp [initState]

/-- C2 (no slot leak): `CallApi` has five ways out (`PostForm` fails, the body cannot be
read, the body cannot be parsed, the code is not zero, success); on each of them there is
exactly one receive from `c.sem`, and it is the last thing `CallApi` does. Hence in every
reachable state the receives done are as many as the `CallApi` calls that have returned,
every completed send is either received or still in the semaphore, and once every
launched `CallApi` has returned and every completed send has been followed by its
launch, the semaphore is empty and its free capacity is `N` again. -/
theorem no_slot_leak (scan : List Byte → Except GoString JValue) (c : Consumer) :
    (∀ data post,
      ((∃ err, post = Except.error err ∧ CallApi scan c data post =
          [Event.logf ⟨LOG_DEBUG, data, []⟩,
           Event.PostForm c.apiEndpoint [(ascii "message", [data])],
           Event.logf ⟨LOG_ERROR, ascii "[%s] http post failed - %s", [c.channel, err]⟩,
           Event.recvSem]) ∨
       (∃ err, post = Except.ok ⟨Except.error err⟩ ∧ CallApi scan c data post =
          [Event.logf ⟨LOG_DEBUG, data, []⟩,
           Event.PostForm c.apiEndpoint [(ascii "message", [data])], Event.ReadAll,
           Event.logf ⟨LOG_ERROR, ascii "[%s] read response body failed - %s",
             [c.channel, data]⟩,
           Event.Close, Event.recvSem]) ∨
       (∃ body err, post = Except.ok ⟨Except.ok body⟩ ∧
          Unmarshal scan body ⟨0, []⟩ = Except.error err ∧ CallApi scan c data post =
          [Event.logf ⟨LOG_DEBUG, data, []⟩,
           Event.PostForm c.apiEndpoint [(ascii "message", [data])], Event.ReadAll,
           Event.Unmarshal body,
           Event.logf ⟨LOG_ERROR, ascii "[%s] parse json response failed - %s %x",
             [c.channel, err, body]⟩,
           Event.Close, Event.recvSem]) ∨
       (∃ body r, post = Except.ok ⟨Except.ok body⟩ ∧
          Unmarshal scan body ⟨0, []⟩ = Except.ok r ∧ r.Code ≠ 0 ∧ CallApi scan c data post =
          [Event.logf ⟨LOG_DEBUG, data, []⟩,
           Event.PostForm c.apiEndpoint [(ascii "message", [data])], Event.ReadAll,
           Event.Unmarshal body,
           Event.logf ⟨LOG_ERROR, ascii "[%s] json response tells error - %s",
             [c.channel, r.Message]⟩,
           Event.Close, Event.recvSem]) ∨
       (∃ body r, post = Except.ok ⟨Except.ok body⟩ ∧
          Unmarshal scan body ⟨0, []⟩ = Except.ok r ∧ r.Code = 0 ∧ CallApi scan c data post =
          [Event.logf ⟨LOG_DEBUG, data, []⟩,
           Event.PostForm c.apiEndpoint [(ascii "message", [data])], Event.ReadAll,
           Event.Unmarshal body, Event.Close, Event.recvSem])) ∧
      semReceives (CallApi scan c data post) = 1 ∧
      (CallApi scan c data post).getLast? = some Event.recvSem) ∧
    (∀ (N : Nat) (feed : List Message) (acts : List Action) (s : State),
      run scan c acts (initState N c feed) = some s →
        s.thread.receives + s.thread.tasks.length = s.thread.launched.length ∧
        s.thread.sends = s.thread.receives + s.sem.len ∧
        (s.thread.tasks = [] → s.thread.sends = s.thread.launched.length →
          s.sem.len = 0 ∧ s.sem.cap - s.sem.len = N)) := by
  refine ⟨fun data post => ⟨?_, semReceives_CallApi scan c data post, ?_⟩, ?_⟩
  · cases post with
    | error err =>
      left
      exact ⟨err, rfl, rfl⟩
    | ok resp =>
      obtain ⟨b⟩ := resp
      cases b with
      | error err =>
        right; left
        exact ⟨err, rfl, rfl⟩
      | ok body =>
        cases hu : Unmarshal scan body ⟨0, []⟩ with
        | error err =>
          right; right; left
          exact ⟨body, err, rfl, hu, by simp [CallApi, CallApiBody, hu]⟩
        | ok r =>
          by_cases hc : r.Code = 0
          · right; right; right; right
            exact ⟨body, r, rfl, hu, hc, by simp [CallApi, CallApiBody, hu, hc]⟩
          · right; right; right; left
            exact ⟨body, r, rfl, hu, hc, by simp [CallApi, CallApiBody, hu, hc]⟩
  · simp [CallApi, List.getLast?_cons, List.getLast?_append]
  · intro N feed acts s hrun
    have hinv := Inv_run acts (Inv_init N c feed) hrun
    have h1 := hinv.len_eq
    have h2 := hinv.sends_eq
    have h3 := hinv.receives_eq
    have h4 := hinv.cap_eq
    refine ⟨h3, by omega, ?_⟩
    intro ht hs
    rw [ht] at h1
    simp only [List.length_nil] at h1
    omega

/-- C3 (backpressure): in a reachable state in which the semaphore holds `N` values and
the loop has pulled message `m` and stands at its send, neither the send nor the launch
nor the pull of a later message can be taken; the only steps are returns of running
`CallApi` calls, and each of them releases one slot, leaves `m` at the send, pulls and
launches nothing, and makes the send and then the launch of `m` possible. In whatever
follows, either `m` still waits (at its send, or with its slot just before its `go`
statement) and nothing was launched, or `m` was the first payload launched. -/
theorem backpressure (scan : List Byte → Except GoString JValue) (c : Consumer) (N : Nat)
    (feed : List Message) (acts : List Action) (s : State) (m : Message)
    (hrun : run scan c acts (initState N c feed) = some s)
    (hfull : s.sem.len = N) (hloop : s.thread.loop = Loop.sending m) :
    step scan c Action.send s = none ∧ step scan c Action.go s = none ∧
    step scan c Action.next s = none ∧
    (∀ a s1, step scan c a s = some s1 →
      (∃ i post, a = Action.ret i post) ∧ s1.sem.len + 1 = s.sem.len ∧
      s1.thread.loop = Loop.sending m ∧ s1.thread.feed = s.thread.feed ∧
      s1.thread.launched = s.thread.launched ∧
      ∃ s2 s3, step scan c Action.send s1 = some s2 ∧ step scan c Action.go s2 = some s3 ∧
        s3.thread.launched = s.thread.launched ++ [m.Payload] ∧
        s3.thread.tasks = s1.thread.tasks ++ [m.Payload] ∧ s3.thread.feed = s.thread.feed) ∧
    (∀ acts2 s4, run scan c acts2 s = some s4 →
      (s4.thread.launched = s.thread.launched ∧
        (s4.thread.loop = Loop.sending m ∨ s4.thread.loop = Loop.spawning m)) ∨
      ∃ more, s4.thread.launched = s.thread.launched ++ m.Payload :: more) := by
  have hinv := Inv_run acts (Inv_init N c feed) hrun
  have hcap := hinv.cap_eq
  have hsend : step scan c Action.send s = none := by
    cases h : step scan c Action.send s with
    | none => rfl
    | some s1 =>
      obtain ⟨m1, -, hlt, -⟩ := (step_send_iff _ _ _ _).mp h
      omega
  have hgo : step scan c Action.go s = none := by
    cases h : step scan c Action.go s with
    | none => rfl
    | some s1 =>
      obtain ⟨m1, hl, -⟩ := (step_go_iff _ _ _ _).mp h
      rw [hloop] at hl
      cases hl
  have hnext : step scan c Action.next s = none := by
    cases h : step scan c Action.next s with
    | none => rfl
    | some s1 =>
      obtain ⟨hl, -⟩ := (step_next_iff _ _ _ _).mp h
      rw [hloop] at hl
      cases hl
  refine ⟨hsend, hgo, hnext, ?_, ?_⟩
  · intro a s1 hs
    cases a with
    | next => rw [hnext] at hs; cases hs
    | send => rw [hsend] at hs; cases hs
    | go => rw [hgo] at hs; cases hs
    | ret i post =>
      obtain ⟨data, -, hge, hs1⟩ := (step_ret_iff _ _ _ _ _ _).mp hs
      subst hs1
      refine ⟨⟨i, post, rfl⟩, by simp only; omega, hloop, rfl, rfl, ?_⟩
      refine ⟨_, _, (step_send_iff _ _ _ _).mpr ⟨m, hloop, by simp only; omega, rfl⟩,
        (step_go_iff _ _ _ _).mpr ⟨m, rfl, rfl⟩, rfl, rfl, rfl⟩
  · intro acts2 s4 hr
    exact stalled_run acts2 (Or.inl ⟨rfl, Or.inl hloop⟩) hr

/-- C8, as amended: for a consumer of capacity `N > 0` on a feed of `k` messages, in
every reachable state the payloads launched so far are the payloads of the first
messages of the feed in their order, and the completed sends are one for each launch plus
one when the loop holds a slot just before its `go` statement; an interleaving has at
most `4 * k + 1` steps; unless the loop has returned and every `CallApi` has returned
some step can be taken, and some interleaving leads from here to that end; and once the
loop has returned it has completed exactly `k` sends and launched exactly `k` calls, the
`i`-th with the payload of the `i`-th message. -/
theorem one_task_per_message (scan : List Byte → Except GoString JValue) (c : Consumer)
    (N : Nat) (hN : 0 < N) (msgs : List Message) (acts : List Action) (s : State)
    (hrun : run scan c acts (initState N c msgs) = some s) :
    (∃ rest, msgs.map Message.Payload = s.thread.launched ++ rest) ∧
    s.thread.sends = s.thread.launched.length + held s.thread.loop ∧
    acts.length + potential s.thread = 4 * msgs.length + 1 ∧
    ((s.thread.loop = Loop.returned ∧ s.thread.tasks = []) ∨
      ∃ a s1, step scan c a s = some s1) ∧
    (∃ acts2 s2, run scan c acts2 s = some s2 ∧ s2.thread.loop = Loop.returned ∧
      s2.thread.tasks = []) ∧
    (s.thread.loop = Loop.returned →
      s.thread.sends = msgs.length ∧ s.thread.launched.length = msgs.length ∧
      s.thread.launched = msgs.map Message.Payload) := by
  have hinv := Inv_run acts (Inv_init N c msgs) hrun
  have hpot := potential_run acts hrun
  have hpot0 : potential (initState N c msgs).thread = 4 * msgs.length + 1 := by
    simp [potential, initState, startThread]
  refine ⟨⟨_, hinv.pulled⟩, hinv.sends_eq, by omega, progress scan c hN hinv,
    can_finish scan c hN _ s hinv (le_refl _), ?_⟩
  intro hl
  have hfeed := hinv.closed hl
  have hp := hinv.pulled
  have hs := hinv.sends_eq
  rw [hl, hfeed] at hp
  simp only [pending, List.map_nil, List.append_nil] at hp
  rw [hl] at hs
  simp only [held, Nat.add_zero] at hs
  have hlen : s.thread.launched.length = msgs.length := by
    rw [← hp, List.length_map]
  exact ⟨by omega, hlen, hp.symm⟩

/-! ## The claims about the whole program -/

/-- C5, as amended: the configured concurrency is not checked anywhere; `main` hands it
to `NewConsumer` as it is. When `main` gets as far as `Run`, the configuration is an
array of tables, there is one started consumer for every table, the configured
concurrency of each is an integer that is not negative (and not above the largest size
`make` can deliver), and its semaphore is an empty channel of exactly that capacity (so
of capacity zero when zero is configured); and when some table has a negative
concurrency, or one above that largest size, `main` stops in `make` and starts no
consumer. -/
theorem capacity_is_configured (limit : Nat) (config : Option (List (Option TomlMap)))
    (feed : Consumer → List Message) :
    (∀ w, main limit config feed = some w →
      ∃ channels : List TomlMap, config = some (channels.map some) ∧
      w.threads.length = channels.length ∧
      ∀ (j : Nat) (cfg : TomlMap), channels[j]? = some cfg →
        ∃ (n : Int) (c : Consumer) (ch : Chan),
          assertInt64 (cfg.index "concurrency") = some n ∧ 0 ≤ n ∧ n ≤ (limit : Int) ∧
          w.threads[j]? = some (c, startThread c (feed c)) ∧
          w.chans[c.sem]? = some ch ∧ (ch.cap : Int) = n ∧ ch.len = 0) ∧
    (∀ channels : List TomlMap, config = some (channels.map some) →
      (∃ cfg ∈ channels, ∃ n, assertInt64 (cfg.index "concurrency") = some n ∧
        (n < 0 ∨ (limit : Int) < n)) →
      main limit config feed = none) := by
  have key : ∀ w, main limit config feed = some w →
      ∃ channels : List TomlMap, config = some (channels.map some) ∧
      w.threads.length = channels.length ∧
      ∀ (j : Nat) (cfg : TomlMap), channels[j]? = some cfg →
        ∃ (n : Int) (c : Consumer) (ch : Chan),
          assertInt64 (cfg.index "concurrency") = some n ∧ 0 ≤ n ∧ n ≤ (limit : Int) ∧
          w.threads[j]? = some (c, startThread c (feed c)) ∧
          w.chans[c.sem]? = some ch ∧ (ch.cap : Int) = n ∧ ch.len = 0 := by
    intro w hw
    obtain ⟨channels, hconfig, h1, -, h3, -⟩ := main_spec limit config feed w hw
    refine ⟨channels, hconfig, h1, ?_⟩
    intro j cfg hj
    obtain ⟨n, c, hn, hn0, ht, hsem, hch⟩ := h3 j cfg hj
    exact ⟨n, c, ⟨n.toNat, 0⟩, hn, hn0.1, hn0.2, ht, by rw [hsem]; exact hch,
      Int.toNat_of_nonneg hn0.1, rfl⟩
  refine ⟨key, ?_⟩
  rintro channels hconfig ⟨cfg, hmem, n, hn, hneg⟩
  cases hm : main limit config feed with
  | none => rfl
  | some w =>
    obtain ⟨channels1, hconfig1, -, hall⟩ := key w hm
    rw [hconfig] at hconfig1
    have heq : channels = channels1 :=
      List.map_injective_iff.mpr (Option.some_injective _) (Option.some.inj hconfig1)
    subst heq
    obtain ⟨j, hj⟩ := List.getElem?_of_mem hmem
    obtain ⟨n1, -, -, hn1, hn0, hn2, -⟩ := hall j cfg hj
    rw [hn] at hn1
    cases hn1
    omega

/-- C9 (independent topics): in every world reached from the one `main` starts, distinct
consumers have distinct semaphores; a step of consumer `i` (a pull, a send, a launch, or
the return of one of its `CallApi` calls on whatever outcome) is a step of `i` on its own
view and leaves the view of every other consumer (its semaphore, its running calls, its
loop) as it was; the send of consumer `j` can be taken exactly when its own loop stands
at the send and its own semaphore has room; and what a consumer has come to is the
result of its own steps alone. -/
theorem independent_topics (scan : List Byte → Except GoString JValue) (limit : Nat)
    (config : Option (List (Option TomlMap))) (feed : Consumer → List Message) (w0 : World)
    (hmain : main limit config feed = some w0) (sched : List (Nat × Action)) (w : World)
    (hrun : World.run scan sched w0 = some w) :
    (∀ (i j : Nat) (ci cj : Consumer) (ti tj : Thread), w.threads[i]? = some (ci, ti) →
      w.threads[j]? = some (cj, tj) → i ≠ j → ci.sem ≠ cj.sem) ∧
    (∀ (i : Nat) (a : Action) (w1 : World), World.step scan i a w = some w1 →
      (∃ c s s1, w.view i = some (c, s) ∧ step scan c a s = some s1 ∧
        w1.view i = some (c, s1)) ∧
      ∀ j, j ≠ i → w1.view j = w.view j) ∧
    (∀ j, (∃ w1, World.step scan j Action.send w = some w1) ↔
      ∃ c s m, w.view j = some (c, s) ∧ s.thread.loop = Loop.sending m ∧
        s.sem.len < s.sem.cap) ∧
    (∀ (j : Nat) (c : Consumer) (s0 : State), w0.view j = some (c, s0) →
      ∃ acts s, run scan c acts s0 = some s ∧ w.view j = some (c, s)) := by
  have hw0 : WellFormed w0 := WellFormed_main hmain
  have hw : WellFormed w := WellFormed_run sched hw0 hrun
  refine ⟨?_, ?_, ?_, ?_⟩
  · intro i j ci cj ti tj hi hj hij
    rw [hw.2 i ci ti hi, hw.2 j cj tj hj]
    exact hij
  · intro i a w1 hs
    exact ⟨view_own hs, view_frame hw hs⟩
  · intro j
    constructor
    · rintro ⟨w1, hs⟩
      obtain ⟨c, s, s1, hv, hst, -⟩ := worldStep_eq_some hs
      obtain ⟨m, hl, hlt, -⟩ := (step_send_iff _ _ _ _).mp hst
      exact ⟨c, s, m, hv, hl, hlt⟩
    · rintro ⟨c, s, m, hv, hl, hlt⟩
      have hst := (step_send_iff scan c s _).mpr ⟨m, hl, hlt, rfl⟩
      cases hws : World.step scan j Action.send w with
      | some w1 => exact ⟨w1, rfl⟩
      | none =>
        unfold World.step at hws
        simp [hv, hst] at hws
  · intro j c s0 hv
    exact view_run sched hw0 hrun j c s0 hv


/-! ## Instances -/

/-- An instance of C1: one slot and a burst of three messages; after the first launch
and the second pull one call is running. -/
theorem admission_bound_witness :
    ∃ s, run exampleScan exampleConsumer [Action.next, Action.send, Action.go, Action.next]
        (initState 1 exampleConsumer exampleFeed) = some s ∧
      s.thread.tasks = [ascii "m1"] ∧ (s.thread.tasks.length : Int) ≤ 1 :=
  ⟨_, rfl, rfl,
    (admission_bound exampleScan exampleLimit [] (ascii "a") 1 (ascii "http://127.0.0.1/push")
      exampleConsumer [⟨1, 0⟩] (by decide) rfl exampleFeed
      [Action.next, Action.send, Action.go, Action.next] _ rfl).2.1⟩

/-- An instance of C2: after three calls with three different outcomes have all returned,
the semaphore of capacity one is empty again. -/
theorem no_slot_leak_witness :
    ∃ s, run exampleScan exampleConsumer exampleSchedule
        (initState 1 exampleConsumer exampleFeed) = some s ∧
      s.thread.tasks = [] ∧ s.thread.sends = s.thread.launched.length ∧
      s.sem.len = 0 ∧ s.sem.cap - s.sem.len = 1 :=
  ⟨_, rfl, rfl, rfl,
    ((no_slot_leak exampleScan exampleConsumer).2 1 exampleFeed exampleSchedule _ rfl).2.2
      rfl rfl⟩

/-- An instance of C3: with one slot taken by the call for `m1`, the send for `m2`
cannot be taken. -/
theorem backpressure_witness :
    ∃ s, run exampleScan exampleConsumer [Action.next, Action.send, Action.go, Action.next]
        (initState 1 exampleConsumer exampleFeed) = some s ∧
      s.sem.len = 1 ∧ s.thread.loop = Loop.sending ⟨ascii "a", ascii "m2"⟩ ∧
      step exampleScan exampleConsumer Action.send s = none :=
  ⟨_, rfl, rfl, rfl,
    (backpressure exampleScan exampleConsumer 1 exampleFeed
      [Action.next, Action.send, Action.go, Action.next] _ ⟨ascii "a", ascii "m2"⟩
      rfl rfl rfl).1⟩

/-- An instance of C4: the body with code 1 and message `bad token` gives one error entry
whose text contains `bad token`. -/
theorem response_classification_witness :
    Unmarshal exampleScan (ascii "\x7b\"code\":1,\"message\":\"bad token\"\x7d") ⟨0, []⟩
      = Except.ok ⟨1, ascii "bad token"⟩ ∧
    ∃ e, errorEntries (CallApi exampleScan exampleConsumer (ascii "hello")
        (Except.ok ⟨Except.ok (ascii "\x7b\"code\":1,\"message\":\"bad token\"\x7d")⟩)) = [e] ∧
      e.format = ascii "[%s] json response tells error - %s" ∧ ascii "bad token" <:+: e.text :=
  ⟨rfl,
    (response_classification exampleScan exampleConsumer (ascii "hello")
      (Except.ok ⟨Except.ok (ascii "\x7b\"code\":1,\"message\":\"bad token\"\x7d")⟩)).2.2.2.2.1
      ⟨Except.ok (ascii "\x7b\"code\":1,\"message\":\"bad token\"\x7d")⟩ _
      ⟨1, ascii "bad token"⟩ rfl rfl rfl (by decide)⟩

/-- The claim C5 fails: a table with concurrency 0 is not rejected; `main` builds a
consumer whose semaphore has capacity 0 and `Run` starts it. -/
theorem capacity_positive_counterexample :
    ∃ w c t ch, main exampleLimit (some [some (exampleTable "a" 0)]) (fun _ => exampleFeed) = some w ∧
      w.threads = [(c, t)] ∧ w.chans[c.sem]? = some ch ∧ ch.cap = 0 :=
  ⟨_, _, _, _, rfl, rfl, rfl, rfl⟩

/-- An instance of C5 as amended: two tables with concurrency 1 and 2 give two started
consumers, and a table with concurrency -2 makes `main` panic. -/
theorem capacity_is_configured_witness :
    (∃ w, main exampleLimit exampleConfig (fun _ => exampleFeed) = some w ∧
      ∃ channels : List TomlMap, exampleConfig = some (channels.map some) ∧
        w.threads.length = channels.length) ∧
    main exampleLimit (some [some (exampleTable "a" 1), some (exampleTable "b" (-2))])
      (fun _ => exampleFeed) = none :=
  ⟨⟨_, rfl,
      match (capacity_is_configured exampleLimit exampleConfig (fun _ => exampleFeed)).1 _ rfl with
      | ⟨channels, h1, h2, _⟩ => ⟨channels, h1, h2⟩⟩,
    (capacity_is_configured exampleLimit
      (some [some (exampleTable "a" 1), some (exampleTable "b" (-2))])
      (fun _ => exampleFeed)).2 [exampleTable "a" 1, exampleTable "b" (-2)] rfl
      ⟨exampleTable "b" (-2), by simp, -2, rfl, Or.inl (by decide)⟩⟩

/-- The claim C6 fails: the error entry of a transport failure does not contain the
payload. -/
theorem failure_log_payload_counterexample :
    ∃ e, errorEntries (CallApi exampleScan exampleConsumer (ascii "hello")
        (Except.error (ascii "connection refused"))) = [e] ∧
      e.text = ascii "[a] http post failed - connection refused" ∧
      ¬ (ascii "hello" <:+: e.text) :=
  ⟨_, rfl, by decide, by decide⟩

/-- An instance of C6 as amended: a transport failure gives exactly one error entry; its
operands are the channel and the transport error, its text contains both, and it is the
same entry for another payload. -/
theorem failure_log_context_witness :
    (∃ e, errorEntries (CallApi exampleScan exampleConsumer (ascii "hello")
        (Except.error (ascii "connection refused"))) = [e] ∧ e.level = LOG_ERROR ∧
      e.args = [ascii "a", ascii "connection refused"] ∧ ascii "a" <:+: e.text ∧
      ascii "connection refused" <:+: e.text) ∧
    errorEntries (CallApi exampleScan exampleConsumer (ascii "goodbye")
        (Except.error (ascii "connection refused")))
      = errorEntries (CallApi exampleScan exampleConsumer (ascii "hello")
        (Except.error (ascii "connection refused"))) :=
  ⟨(failure_log_context exampleScan exampleConsumer (ascii "hello")
      (Except.error (ascii "connection refused"))).2.1 (ascii "connection refused") rfl,
    (failure_log_context exampleScan exampleConsumer (ascii "hello")
      (Except.error (ascii "connection refused"))).2.2.2.2.2
      (fun _ _ h => nomatch h) (ascii "goodbye")⟩

/-- The claim C8 fails for a consumer of capacity 0: with one message on the feed, after
the pull no step can be taken any more; the loop has not returned, no send has completed
and nothing was launched. -/
theorem one_task_per_message_counterexample :
    ∃ s, run exampleScan exampleConsumer [Action.next]
        (initState 0 exampleConsumer [⟨ascii "a", ascii "m1"⟩]) = some s ∧
      (∀ a, step exampleScan exampleConsumer a s = none) ∧
      s.thread.loop = Loop.sending ⟨ascii "a", ascii "m1"⟩ ∧
      s.thread.sends = 0 ∧ s.thread.launched = [] :=
  ⟨_, rfl, fun a => by cases a <;> rfl, rfl, rfl, rfl⟩

/-- An instance of C8 as amended: with one slot, the example interleaving of thirteen
steps on three messages ends with the loop returned, three sends and the three payloads
launched in order. -/
theorem one_task_per_message_witness :
    ∃ s, run exampleScan exampleConsumer exampleSchedule
        (initState 1 exampleConsumer exampleFeed) = some s ∧
      s.thread.loop = Loop.returned ∧ s.thread.sends = 3 ∧ s.thread.launched.length = 3 ∧
      s.thread.launched = [ascii "m1", ascii "m2", ascii "m3"] :=
  ⟨_, rfl, rfl,
    (one_task_per_message exampleScan exampleConsumer 1 (by decide) exampleFeed
      exampleSchedule _ rfl).2.2.2.2.2 rfl⟩

/-- An instance of C9: with two consumers, the return of a failed call of the first
leaves the view of the second as it was. -/
theorem independent_topics_witness :
    ∃ w0 w w1, main exampleLimit exampleConfig (fun _ => exampleFeed) = some w0 ∧
      World.run exampleScan [(0, Action.next), (0, Action.send), (0, Action.go), (1, Action.next)]
        w0 = some w ∧
      World.step exampleScan 0 (Action.ret 0 (Except.error (ascii "connection refused"))) w
        = some w1 ∧
      w1.view 1 = w.view 1 :=
  ⟨_, _, _, rfl, rfl, rfl,
    ((independent_topics exampleScan exampleLimit exampleConfig (fun _ => exampleFeed) _ rfl
      [(0, Action.next), (0, Action.send), (0, Action.go), (1, Action.next)] _ rfl).2.1
      0 (Action.ret 0 (Except.error (ascii "connection refused"))) _ rfl).2 1 (by decide)⟩

/-- An instance of C10: the body with a message and no code decodes to code 0, and no
error entry is logged. -/
theorem missing_code_is_success_witness :
    Unmarshal exampleScan (ascii "\x7b\"message\":\"rejected\"\x7d") ⟨0, []⟩
      = Except.ok ⟨0, ascii "rejected"⟩ ∧
    (0 : Int) = 0 ∧
    errorEntries (CallApi exampleScan exampleConsumer (ascii "hello")
      (Except.ok ⟨Except.ok (ascii "\x7b\"message\":\"rejected\"\x7d")⟩)) = [] :=
  ⟨rfl,
    (missing_code_is_success exampleScan exampleConsumer (ascii "hello")
      (ascii "\x7b\"message\":\"rejected\"\x7d")
      (JValue.object [(ascii "message", JValue.string (ascii "rejected"))]) rfl
      (Or.inr ⟨_, rfl, by decide⟩)).2.2 ⟨0, ascii "rejected"⟩ rfl⟩

end PushService
